import Mathlib

/-!
# Conversion builtins of `src/builtins/builtins-conversion.cc`

A shallow embedding of the CodeStubAssembler graphs built in
`builtins-conversion.cc`: tagged values, the checks the graphs perform on
them, the collaborators they call (property lookup, invocation, number
conversion), and the graphs themselves as functions on an explicit
execution state.
-/

namespace V8

/-! ## Tagged values -/

/-- An IEEE-754 double, by exact value: NaN, the two infinities, negative zero,
and the finite values (positive zero is `finite 0`). Comparison and floor are
exact on doubles, so the finite values are carried as rationals. -/
inductive Float64 where
  | nan
  | inf (negative : Bool)
  | negZero
  | finite (q : ℚ)
  deriving DecidableEq

/-- Modelled from the spec: the `InstanceType` enumeration of `objects.h` is not
in src/. Only the order of the constants matters: string types come first
(below `kIsNotStringMask`), then the other primitives up to
`LAST_PRIMITIVE_TYPE`, then internal types, then the JSReceiver types up to
`LAST_TYPE`. -/
abbrev InstanceType := Nat

def FIRST_TYPE : InstanceType := 0
def FIRST_PRIMITIVE_TYPE : InstanceType := 0
def ONE_BYTE_STRING_TYPE : InstanceType := 0x48
def kIsNotStringMask : Nat := 0x80
def SYMBOL_TYPE : InstanceType := 0x80
def HEAP_NUMBER_TYPE : InstanceType := 0x81
def ODDBALL_TYPE : InstanceType := 0x83
def LAST_PRIMITIVE_TYPE : InstanceType := ODDBALL_TYPE
def JS_PROXY_TYPE : InstanceType := 0xb4
def FIRST_JS_RECEIVER_TYPE : InstanceType := JS_PROXY_TYPE
def JS_VALUE_TYPE : InstanceType := 0xbb
def JS_OBJECT_TYPE : InstanceType := 0xbe
def JS_FUNCTION_TYPE : InstanceType := 0xdf
def LAST_TYPE : InstanceType := JS_FUNCTION_TYPE

/-- Modelled from the spec: the constructor-function indices of `contexts.h`
and `Map::kNoConstructorFunctionIndex` of `objects.h` are not in src/. The
slots are pairwise distinct and differ from the "no constructor" marker. -/
def kNoConstructorFunctionIndex : Nat := 0
def NUMBER_FUNCTION_INDEX : Nat := 101
def STRING_FUNCTION_INDEX : Nat := 102
def BOOLEAN_FUNCTION_INDEX : Nat := 103
def SYMBOL_FUNCTION_INDEX : Nat := 104

/-- The fields of a `Map` (hidden class) that the conversion graphs read. -/
structure Map where
  instance_type : InstanceType
  is_callable : Bool
  constructor_function_index : Nat
  deriving DecidableEq

/-- The instance types of JSReceiver maps, `FIRST_JS_RECEIVER_TYPE` to
`LAST_TYPE`. -/
inductive JSReceiverType where
  | JS_PROXY
  | JS_VALUE
  | JS_OBJECT
  | JS_FUNCTION
  deriving DecidableEq

def JSReceiverType.toInstanceType : JSReceiverType → InstanceType
  | .JS_PROXY => JS_PROXY_TYPE
  | .JS_VALUE => JS_VALUE_TYPE
  | .JS_OBJECT => JS_OBJECT_TYPE
  | .JS_FUNCTION => JS_FUNCTION_TYPE

/-- The map of a JSReceiver: its identity (the shape), its receiver instance
type and its callable bit. The initial map of a constructor function is always
such a map. -/
structure JSReceiverMap where
  id : Nat
  type : JSReceiverType
  is_callable : Bool
  deriving DecidableEq

/-- The oddballs that are language values. -/
inductive Oddball where
  | undefined
  | null
  | true_value
  | false_value
  deriving DecidableEq

/-- A heap object that can be a language value: the primitives that live on
the heap and the JSReceivers. A receiver is a pointer (its address is its
identity) carried together with the map found at that address. -/
inductive HeapObject where
  | HeapNumber (value : Float64)
  | String (chars : String)
  | Symbol (id : Nat)
  | Oddball (kind : Oddball)
  | JSReceiver (address : Nat) (map : JSReceiverMap)
  deriving DecidableEq

/-- A tagged value: a small integer or a pointer to a heap object. -/
inductive Value where
  | Smi (n : Int)
  | Heap (o : HeapObject)
  deriving DecidableEq

def NullConstant : Value := .Heap (.Oddball .null)
def UndefinedConstant : Value := .Heap (.Oddball .undefined)

/-- The heap-number map root. -/
def heap_number_map : Map :=
  { instance_type := HEAP_NUMBER_TYPE, is_callable := false,
    constructor_function_index := NUMBER_FUNCTION_INDEX }

/-- Modelled from the spec: the maps of the primitive heap objects are set up
by the heap and bootstrapper, which are not in src/. Strings, symbols and
booleans record their wrapper constructor; null and undefined record none. -/
def LoadMap : HeapObject → Map
  | .HeapNumber _ => heap_number_map
  | .String _ =>
      { instance_type := ONE_BYTE_STRING_TYPE, is_callable := false,
        constructor_function_index := STRING_FUNCTION_INDEX }
  | .Symbol _ =>
      { instance_type := SYMBOL_TYPE, is_callable := false,
        constructor_function_index := SYMBOL_FUNCTION_INDEX }
  | .Oddball .true_value =>
      { instance_type := ODDBALL_TYPE, is_callable := false,
        constructor_function_index := BOOLEAN_FUNCTION_INDEX }
  | .Oddball .false_value =>
      { instance_type := ODDBALL_TYPE, is_callable := false,
        constructor_function_index := BOOLEAN_FUNCTION_INDEX }
  | .Oddball _ =>
      { instance_type := ODDBALL_TYPE, is_callable := false,
        constructor_function_index := kNoConstructorFunctionIndex }
  | .JSReceiver _ m =>
      { instance_type := m.type.toInstanceType, is_callable := m.is_callable,
        constructor_function_index := kNoConstructorFunctionIndex }

def LoadMapInstanceType (map : Map) : InstanceType := map.instance_type

def LoadInstanceType (o : HeapObject) : InstanceType := LoadMapInstanceType (LoadMap o)

def LoadMapConstructorFunctionIndex (map : Map) : Nat := map.constructor_function_index

def IsCallableMap (map : Map) : Bool := map.is_callable

def IsHeapNumberMap (map : Map) : Bool := decide (map = heap_number_map)

def IsStringInstanceType (t : InstanceType) : Bool := decide (t < kIsNotStringMask)

def IsJSReceiverInstanceType (t : InstanceType) : Bool := decide (FIRST_JS_RECEIVER_TYPE ≤ t)

/-! ## Spec-level classification of values -/

/-- A Receiver in the sense of the specification's value tags. -/
def Value.isReceiver : Value → Bool
  | .Heap (.JSReceiver _ _) => true
  | _ => false

/-- A primitive is a value that is not a Receiver. -/
def Value.isPrimitive (v : Value) : Bool := !v.isReceiver

/-- A value is callable when it is a receiver whose map has the callable bit. -/
def Value.isCallable : Value → Bool
  | .Heap (.JSReceiver _ m) => m.is_callable
  | _ => false

/-! ## Execution state and collaborators -/

/-- The result of calling a collaborator: a value, or a thrown value. -/
inductive Completion where
  | normal (v : Value)
  | throw (e : Value)
  deriving DecidableEq

/-- What a graph did to its collaborators, in order. -/
inductive Event where
  | GetProperty (object key : Value)
  | Call (function receiver : Value) (args : List Value)
  | NonNumberToNumber (input : Value)
  deriving DecidableEq

/-- The collaborators called by the graphs. They run user-level code, so each
one transforms a world of type `σ`. -/
structure Collaborators (σ : Type) where
  GetProperty : σ → Value → Value → Completion × σ
  Call : σ → Value → Value → List Value → Completion × σ
  NonNumberToNumber : σ → Value → Completion × σ

/-- The state a graph runs in: the collaborators' world and the calls made. -/
structure Exec (σ : Type) where
  world : σ
  trace : List Event

/-- The throwing runtime functions the graphs tail-call. -/
inductive RuntimeFunction where
  | kThrowCannotConvertToPrimitive
  | kThrowUndefinedOrNullToObject
  deriving DecidableEq

/-- How a builtin ends: it returns a value, tail-calls a throwing runtime
function, is unwound by a value thrown in a callee, or reads a variable that no
path has bound. -/
inductive Outcome where
  | Return (v : Value)
  | TailCallRuntime (f : RuntimeFunction)
  | Exception (e : Value)
  | Unbound
  deriving DecidableEq

/-- The stub call `CallStub(CodeFactory::GetProperty, context, object, key)`. -/
def CallStub_GetProperty {σ : Type} (c : Collaborators σ) (s : Exec σ) (object key : Value) :
    Completion × Exec σ :=
  let r := c.GetProperty s.world object key
  (r.1, { world := r.2, trace := s.trace ++ [Event.GetProperty object key] })

/-- The call `CallJS(CodeFactory::Call, context, function, receiver, args...)`. -/
def CallJS {σ : Type} (c : Collaborators σ) (s : Exec σ) (function receiver : Value)
    (args : List Value) : Completion × Exec σ :=
  let r := c.Call s.world function receiver args
  (r.1, { world := r.2, trace := s.trace ++ [Event.Call function receiver args] })

/-- The stub call `CallStub(CodeFactory::NonNumberToNumber, context, input)`. -/
def CallStub_NonNumberToNumber {σ : Type} (c : Collaborators σ) (s : Exec σ) (input : Value) :
    Completion × Exec σ :=
  let r := c.NonNumberToNumber s.world input
  (r.1, { world := r.2, trace := s.trace ++ [Event.NonNumberToNumber input] })

/-! ## OrdinaryToPrimitive -/

inductive OrdinaryToPrimitiveHint where
  | kNumber
  | kString
  deriving DecidableEq

inductive ToPrimitiveHint where
  | kDefault
  | kNumber
  | kString
  deriving DecidableEq

def valueOf_string : Value := .Heap (.String "valueOf")
def toString_string : Value := .Heap (.String "toString")
def to_primitive_symbol : Value := .Heap (.Symbol 0)

/-- Modelled from the spec: `Factory::ToPrimitiveHintString` is not in src/; it
gives the string form of the hint. -/
def ToPrimitiveHintString : ToPrimitiveHint → Value
  | .kDefault => .Heap (.String "default")
  | .kNumber => .Heap (.String "number")
  | .kString => .Heap (.String "string")

/-- The `method_names` array filled by the switch on the hint. -/
def method_names : OrdinaryToPrimitiveHint → List Value
  | .kNumber => [valueOf_string, toString_string]
  | .kString => [toString_string, valueOf_string]

/-- The label `return_result`: return the value of `var_result`. -/
def return_result {σ : Type} (var_result : Option Value) (s : Exec σ) : Outcome × Exec σ :=
  match var_result with
  | some v => (.Return v, s)
  | none => (.Unbound, s)

/-- The loop `for (Handle<String> name : method_names)` of
`Generate_OrdinaryToPrimitive`, followed by the tail call that throws. The loop
is unrolled when the graph is built; each round is one pass through the
body. -/
def OrdinaryToPrimitive_loop {σ : Type} (c : Collaborators σ) (input : Value) :
    List Value → Option Value → Exec σ → Outcome × Exec σ
  | [], _, s => (.TailCallRuntime .kThrowCannotConvertToPrimitive, s)
  | name :: rest, var_result, s =>
    -- Lookup the {name} on the {input}.
    match CallStub_GetProperty c s input name with
    | (.throw e, s1) => (.Exception e, s1)
    | (.normal method, s1) =>
      -- Check if the {method} is callable.
      match method with
      | .Smi _ => OrdinaryToPrimitive_loop c input rest var_result s1
      | .Heap method_object =>
        if IsCallableMap (LoadMap method_object) then
          -- Call the {method} on the {input}.
          match CallJS c s1 method input [] with
          | (.throw e, s2) => (.Exception e, s2)
          | (.normal result, s2) =>
            let var_result := some result
            -- Return the {result} if it is a primitive.
            match result with
            | .Smi _ => return_result var_result s2
            | .Heap result_object =>
              if LoadInstanceType result_object ≤ LAST_PRIMITIVE_TYPE then
                return_result var_result s2
              else
                OrdinaryToPrimitive_loop c input rest var_result s2
        else
          OrdinaryToPrimitive_loop c input rest var_result s1

/-- The graph built by `Generate_OrdinaryToPrimitive(hint)`. -/
def Generate_OrdinaryToPrimitive {σ : Type} (c : Collaborators σ) (hint : OrdinaryToPrimitiveHint)
    (input : Value) (s : Exec σ) : Outcome × Exec σ :=
  OrdinaryToPrimitive_loop c input (method_names hint) none s

/-! ## NonPrimitiveToPrimitive -/

/-- The graph built by `Generate_NonPrimitiveToPrimitive(hint)`. The tail call
to the OrdinaryToPrimitive stub runs that builtin in the current state. -/
def Generate_NonPrimitiveToPrimitive {σ : Type} (c : Collaborators σ) (hint : ToPrimitiveHint)
    (input : Value) (s : Exec σ) : Outcome × Exec σ :=
  -- Lookup the @@toPrimitive property on the {input}.
  match CallStub_GetProperty c s input to_primitive_symbol with
  | (.throw e, s1) => (.Exception e, s1)
  | (.normal exotic_to_prim, s1) =>
    -- Check if {exotic_to_prim} is neither null nor undefined.
    if exotic_to_prim = NullConstant then
      Generate_OrdinaryToPrimitive c
        (if hint = ToPrimitiveHint.kString then OrdinaryToPrimitiveHint.kString
         else OrdinaryToPrimitiveHint.kNumber) input s1
    else if exotic_to_prim = UndefinedConstant then
      Generate_OrdinaryToPrimitive c
        (if hint = ToPrimitiveHint.kString then OrdinaryToPrimitiveHint.kString
         else OrdinaryToPrimitiveHint.kNumber) input s1
    else
      -- Invoke the {exotic_to_prim} method on the {input} with a string
      -- representation of the {hint}.
      let hint_string := ToPrimitiveHintString hint
      match CallJS c s1 exotic_to_prim input [hint_string] with
      | (.throw e, s2) => (.Exception e, s2)
      | (.normal result, s2) =>
        -- Verify that the {result} is actually a primitive.
        match result with
        | .Smi _ => (.Return result, s2)
        | .Heap result_object =>
          if LoadInstanceType result_object ≤ LAST_PRIMITIVE_TYPE then
            (.Return result, s2)
          else
            (.TailCallRuntime .kThrowCannotConvertToPrimitive, s2)

/-! ## ToLength -/

def kMaxSafeInteger : ℚ := 9007199254740991

/-- The numeric value of a double that is neither NaN nor infinite. -/
def Float64.toRat : Float64 → ℚ
  | .finite q => q
  | _ => 0

/-- The comparison `lhs > rhs` on doubles: false when either side is NaN, and
the two zeros compare equal. -/
def Float64GreaterThan : Float64 → Float64 → Bool
  | .nan, _ => false
  | _, .nan => false
  | .inf true, _ => false
  | _, .inf false => false
  | .inf false, _ => true
  | _, .inf true => true
  | a, b => decide (b.toRat < a.toRat)

/-- The comparison `lhs >= rhs` on doubles: false when either side is NaN. -/
def Float64GreaterThanOrEqual : Float64 → Float64 → Bool
  | .nan, _ => false
  | _, .nan => false
  | .inf false, _ => true
  | _, .inf true => true
  | .inf true, _ => false
  | _, .inf false => false
  | a, b => decide (b.toRat ≤ a.toRat)

def Float64Constant (q : ℚ) : Float64 := .finite q

/-- Rounding towards -Infinity: NaN, the infinities and the zeros are kept. -/
def Float64Floor : Float64 → Float64
  | .finite q => .finite (⌊q⌋ : Int)
  | v => v

/-- Modelled from the spec: `ChangeFloat64ToTagged` (code-stub-assembler.cc) is
not in src/. It tags a double: a small integer when the double is an integer
that fits the 32-bit Smi payload and is not -0, a HeapNumber otherwise. -/
def ChangeFloat64ToTagged : Float64 → Value
  | .finite q =>
    if q = ((⌊q⌋ : Int) : ℚ) ∧ -2147483648 ≤ ⌊q⌋ ∧ ⌊q⌋ ≤ 2147483647 then .Smi ⌊q⌋
    else .Heap (.HeapNumber (.finite q))
  | v => .Heap (.HeapNumber v)

/-- The constant node for a number, tagged like any other double. -/
def NumberConstant (q : ℚ) : Value := ChangeFloat64ToTagged (.finite q)

def SmiConstant (n : Int) : Value := .Smi n

def TaggedIsSmi : Value → Bool
  | .Smi _ => true
  | .Heap _ => false

def TaggedIsPositiveSmi : Value → Bool
  | .Smi n => decide (0 ≤ n)
  | .Heap _ => false

/-- The value field of a HeapNumber. The graphs read it only behind a
heap-number-map check; on other objects the read is meaningless. -/
def LoadHeapNumberValue : HeapObject → Float64
  | .HeapNumber v => v
  | _ => .nan

/-- The loop of `TF_BUILTIN(ToLength)`: one round per pass through the label
`loop`, `none` when the rounds allowed are used up before a return. -/
def ToLength_loop {σ : Type} (c : Collaborators σ) :
    Nat → Value → Exec σ → Option (Outcome × Exec σ)
  | 0, _, _ => none
  | fuel + 1, var_len, s =>
    -- Load the current {len} value.
    let len := var_len
    -- Check if {len} is a positive Smi.
    if TaggedIsPositiveSmi len then some (.Return var_len, s)
    else
      match len with
      -- Check if {len} is a (negative) Smi.
      | .Smi _ => some (.Return (SmiConstant 0), s)
      | .Heap len_object =>
        -- Check if {len} is a HeapNumber.
        if IsHeapNumberMap (LoadMap len_object) then
          -- Load the floating-point value of {len}.
          let len_value := LoadHeapNumberValue len_object
          -- Check if {len} is not greater than zero.
          if !Float64GreaterThan len_value (Float64Constant 0) then
            some (.Return (SmiConstant 0), s)
          -- Check if {len} is greater than or equal to 2^53-1.
          else if Float64GreaterThanOrEqual len_value (Float64Constant kMaxSafeInteger) then
            some (.Return (NumberConstant kMaxSafeInteger), s)
          else
            -- Round the {len} towards -Infinity.
            let value := Float64Floor len_value
            let result := ChangeFloat64ToTagged value
            some (.Return result, s)
        else
          -- Need to convert {len} to a Number first.
          match CallStub_NonNumberToNumber c s len with
          | (.throw e, s1) => some (.Exception e, s1)
          | (.normal v, s1) => ToLength_loop c fuel v s1

/-- The builtin `ToLength`: `var_len` starts as the argument. -/
def ToLength {σ : Type} (c : Collaborators σ) (fuel : Nat) (input : Value) (s : Exec σ) :
    Option (Outcome × Exec σ) :=
  ToLength_loop c fuel input s

/-! ## ToObject -/

inductive RootIndex where
  | kEmptyFixedArrayRootIndex
  deriving DecidableEq

/-- The fields of an allocated `JSValue` (`JSValue::kSize`): map, properties,
elements and value. A field is `none` until it is stored. -/
structure JSValue where
  map : Option JSReceiverMap
  properties : Option RootIndex
  elements : Option RootIndex
  value : Option Value
  deriving DecidableEq

/-- The objects allocated so far; an object's address is its position. -/
abbrev Heap := List JSValue

/-- A constructor function, with its `kPrototypeOrInitialMapOffset` field. -/
structure JSFunction where
  prototype_or_initial_map : JSReceiverMap

/-- The native context: the table of constructor functions by index. -/
abbrev NativeContext := Nat → JSFunction

structure Context where
  native_context : NativeContext

def LoadNativeContext (context : Context) : NativeContext := context.native_context

def LoadFixedArrayElement (native_context : NativeContext) (index : Nat) : JSFunction :=
  native_context index

/-- Allocation of a `JSValue`: a fresh address, all fields still unset. -/
def Allocate (heap : Heap) : Nat × Heap :=
  (heap.length, heap ++ [{ map := none, properties := none, elements := none, value := none }])

/-- A store into the object at `address`. -/
def Heap.store (heap : Heap) (address : Nat) (f : JSValue → JSValue) : Heap :=
  match heap[address]? with
  | some o => heap.set address (f o)
  | none => heap

def StoreMapNoWriteBarrier (heap : Heap) (object : Nat) (map : JSReceiverMap) : Heap :=
  heap.store object (fun o => { o with map := some map })

def StoreObjectFieldRoot_properties (heap : Heap) (object : Nat) (root : RootIndex) : Heap :=
  heap.store object (fun o => { o with properties := some root })

def StoreObjectFieldRoot_elements (heap : Heap) (object : Nat) (root : RootIndex) : Heap :=
  heap.store object (fun o => { o with elements := some root })

def StoreObjectField_value (heap : Heap) (object : Nat) (value : Value) : Heap :=
  heap.store object (fun o => { o with value := some value })

/-- The label `if_wrapjsvalue` of `TF_BUILTIN(ToObject)`: read the constructor
index variable, load the constructor's initial map from the native context,
allocate the wrapper and store its four fields. The value returned is the
pointer to the new object, which now has the initial map. -/
def if_wrapjsvalue (context : Context) (object : Value)
    (constructor_function_index_var : Option Nat) (heap : Heap) : Outcome × Heap :=
  match constructor_function_index_var with
  | none => (.Unbound, heap)
  | some index =>
    let native_context := LoadNativeContext context
    let constructor := LoadFixedArrayElement native_context index
    let initial_map := constructor.prototype_or_initial_map
    let (js_value, heap) := Allocate heap
    let heap := StoreMapNoWriteBarrier heap js_value initial_map
    let heap := StoreObjectFieldRoot_properties heap js_value .kEmptyFixedArrayRootIndex
    let heap := StoreObjectFieldRoot_elements heap js_value .kEmptyFixedArrayRootIndex
    let heap := StoreObjectField_value heap js_value object
    (.Return (.Heap (.JSReceiver js_value initial_map)), heap)

/-- The label `if_number` of `TF_BUILTIN(ToObject)`. -/
def if_number (context : Context) (object : Value) (heap : Heap) : Outcome × Heap :=
  let constructor_function_index_var := some NUMBER_FUNCTION_INDEX
  if_wrapjsvalue context object constructor_function_index_var heap

/-- The builtin `ToObject`. -/
def ToObject (context : Context) (object : Value) (heap : Heap) : Outcome × Heap :=
  match object with
  | .Smi _ => if_number context object heap
  | .Heap heap_object =>
    let map := LoadMap heap_object
    if IsHeapNumberMap map then if_number context object heap
    else
      let instance_type := LoadMapInstanceType map
      if IsJSReceiverInstanceType instance_type then (.Return object, heap)
      else
        let constructor_function_index := LoadMapConstructorFunctionIndex map
        if constructor_function_index = kNoConstructorFunctionIndex then
          (.TailCallRuntime .kThrowUndefinedOrNullToObject, heap)
        else
          let constructor_function_index_var := some constructor_function_index
          if_wrapjsvalue context object constructor_function_index_var heap

/-! ## A small world for concrete runs -/

/-- A plain object with both conversion methods. -/
def sampleObject : Value :=
  .Heap (.JSReceiver 1 { id := 1, type := .JS_OBJECT, is_callable := false })

/-- The function stored under `valueOf`; it returns 10. -/
def sampleValueOf : Value :=
  .Heap (.JSReceiver 2 { id := 2, type := .JS_FUNCTION, is_callable := true })

/-- The function stored under `toString`; it returns "x". -/
def sampleToString : Value :=
  .Heap (.JSReceiver 3 { id := 2, type := .JS_FUNCTION, is_callable := true })

/-- A plain object without conversion methods. -/
def bareObject : Value :=
  .Heap (.JSReceiver 4 { id := 1, type := .JS_OBJECT, is_callable := false })

/-- An object with a to-primitive capability that returns its argument. -/
def exoticObject : Value :=
  .Heap (.JSReceiver 5 { id := 1, type := .JS_OBJECT, is_callable := false })

/-- The capability of `exoticObject`. -/
def sampleToPrimitive : Value :=
  .Heap (.JSReceiver 6 { id := 2, type := .JS_FUNCTION, is_callable := true })

/-- An object with a to-primitive capability that returns an object. -/
def stubbornObject : Value :=
  .Heap (.JSReceiver 7 { id := 1, type := .JS_OBJECT, is_callable := false })

/-- The capability of `stubbornObject`; it returns itself. -/
def stubbornToPrimitive : Value :=
  .Heap (.JSReceiver 8 { id := 2, type := .JS_FUNCTION, is_callable := true })

/-- A world without state: `sampleObject` exposes valueOf→10 and toString→"x",
`exoticObject` and `stubbornObject` expose a to-primitive capability, every
other property is undefined, and the number conversion of the string "10" is
10. -/
def sampleWorld : Collaborators Unit where
  GetProperty := fun _ object key =>
    if object = sampleObject ∧ key = valueOf_string then (.normal sampleValueOf, ())
    else if object = sampleObject ∧ key = toString_string then (.normal sampleToString, ())
    else if object = exoticObject ∧ key = to_primitive_symbol then
      (.normal sampleToPrimitive, ())
    else if object = stubbornObject ∧ key = to_primitive_symbol then
      (.normal stubbornToPrimitive, ())
    else (.normal UndefinedConstant, ())
  Call := fun _ function _ args =>
    if function = sampleValueOf then (.normal (.Smi 10), ())
    else if function = sampleToString then (.normal (.Heap (.String "x")), ())
    else if function = sampleToPrimitive then (.normal (args.headD UndefinedConstant), ())
    else (.normal function, ())
  NonNumberToNumber := fun _ input =>
    if input = .Heap (.String "10") then (.normal (.Smi 10), ())
    else (.normal (.Heap (.HeapNumber .nan)), ())

/-- The starting state: nothing called yet. -/
def Exec.start {σ : Type} (w : σ) : Exec σ := { world := w, trace := [] }

/-- A context whose constructor at index `i` has the initial map with id `i`. -/
def sampleContext : Context where
  native_context := fun i =>
    { prototype_or_initial_map := { id := i, type := .JS_VALUE, is_callable := false } }

/-! ## Specification-level descriptions -/

/-- The method name `name` yields the primitive `r`: the property looked up on
`input` is callable, and invoking it with receiver `input` and no arguments
returns the primitive `r`. The world goes from `w` to `w'`. -/
def YieldsPrimitive {σ : Type} (c : Collaborators σ) (input name : Value) (w : σ) (r : Value)
    (w' : σ) : Prop :=
  ∃ m w1, c.GetProperty w input name = (.normal m, w1) ∧ m.isCallable = true ∧
    c.Call w1 m input [] = (.normal r, w') ∧ r.isPrimitive = true

/-- The method name `name` is passed over: the property looked up on `input` is
not callable (and is not invoked), or it is callable and its invocation returns
a non-primitive. The world goes from `w` to `w'`. -/
def PassedOver {σ : Type} (c : Collaborators σ) (input name : Value) (w w' : σ) : Prop :=
  ∃ m w1, c.GetProperty w input name = (.normal m, w1) ∧
    ((m.isCallable = false ∧ w' = w1) ∨
     (m.isCallable = true ∧ ∃ x, c.Call w1 m input [] = (.normal x, w') ∧ x.isPrimitive = false))

/-- Of the names `first`, `second` tried in this order, the first one that
yields a primitive yields `r`. -/
def FirstPrimitive {σ : Type} (c : Collaborators σ) (input first second : Value) (w : σ)
    (r : Value) (w' : σ) : Prop :=
  YieldsPrimitive c input first w r w' ∨
    ∃ w1, PassedOver c input first w w1 ∧ YieldsPrimitive c input second w1 r w'

/-- One method name tried the way the specification words it. -/
inductive Attempt (σ : Type) where
  | threw (e : Value) (s : Exec σ)
  | primitive (r : Value) (s : Exec σ)
  | next (s : Exec σ)

/-- Trying one method name: look the property up; if it is not callable go on
to the next name; if it is, invoke it on `input` without arguments; a primitive
result is returned, any other result goes on to the next name. -/
def attempt {σ : Type} (c : Collaborators σ) (input name : Value) (s : Exec σ) : Attempt σ :=
  match CallStub_GetProperty c s input name with
  | (.throw e, s1) => .threw e s1
  | (.normal method, s1) =>
    if method.isCallable then
      match CallJS c s1 method input [] with
      | (.throw e, s2) => .threw e s2
      | (.normal result, s2) => if result.isPrimitive then .primitive result s2 else .next s2
    else .next s1

/-- The state an attempt ends in. -/
def Attempt.state {σ : Type} : Attempt σ → Exec σ
  | .threw _ s => s
  | .primitive _ s => s
  | .next s => s

/-- The number a tagged value denotes, when it is numeric. -/
def Value.number : Value → Option Float64
  | .Smi n => some (.finite n)
  | .Heap (.HeapNumber v) => some v
  | _ => none

/-- ToLength of a floating value in the specification's words: ≤0 → 0;
≥2^53−1 → 2^53−1; otherwise floor toward −Infinity. -/
def ToLength_float_stated (v : Float64) : Float64 :=
  if Float64GreaterThanOrEqual (Float64Constant 0) v then .finite 0
  else if Float64GreaterThanOrEqual v (Float64Constant kMaxSafeInteger) then
    .finite kMaxSafeInteger
  else Float64Floor v

/-- ToLength of a floating value, amended: NaN or ≤0 → 0; ≥2^53−1 → 2^53−1;
otherwise floor toward −Infinity. -/
def ToLength_float_amended (v : Float64) : Float64 :=
  if v = .nan ∨ Float64GreaterThanOrEqual (Float64Constant 0) v = true then .finite 0
  else if Float64GreaterThanOrEqual v (Float64Constant kMaxSafeInteger) then
    .finite kMaxSafeInteger
  else Float64Floor v

/-- The value tags of the specification's data model. -/
inductive Tag where
  | SmallInteger
  | FloatNumber
  | String
  | Boolean
  | Null
  | Undefined
  | Symbol
  | Receiver
  deriving DecidableEq

/-- The tag of a value. -/
def Value.tag : Value → Tag
  | .Smi _ => .SmallInteger
  | .Heap (.HeapNumber _) => .FloatNumber
  | .Heap (.String _) => .String
  | .Heap (.Symbol _) => .Symbol
  | .Heap (.Oddball .true_value) => .Boolean
  | .Heap (.Oddball .false_value) => .Boolean
  | .Heap (.Oddball .null) => .Null
  | .Heap (.Oddball .undefined) => .Undefined
  | .Heap (.JSReceiver _ _) => .Receiver

/-- The slot of the constructor table that holds the wrapper constructor of a
kind of primitive: the Number constructor for both kinds of number, and no slot
for null, undefined and receivers. -/
def Tag.constructorIndex : Tag → Option Nat
  | .SmallInteger => some NUMBER_FUNCTION_INDEX
  | .FloatNumber => some NUMBER_FUNCTION_INDEX
  | .String => some STRING_FUNCTION_INDEX
  | .Boolean => some BOOLEAN_FUNCTION_INDEX
  | .Symbol => some SYMBOL_FUNCTION_INDEX
  | _ => none

/-- A finished wrapper object: the given map, empty properties and elements,
and the wrapped value. -/
def wrapperObject (map : JSReceiverMap) (value : Value) : JSValue :=
  { map := some map, properties := some .kEmptyFixedArrayRootIndex,
    elements := some .kEmptyFixedArrayRootIndex, value := some value }

/-- The hint OrdinaryToPrimitive is entered with, in the specification's words:
Default→Number, Number→Number, String→String. -/
def ordinaryHint : ToPrimitiveHint → OrdinaryToPrimitiveHint
  | .kDefault => .kNumber
  | .kNumber => .kNumber
  | .kString => .kString

/-! ## ToString -/

/-- Modelled from the spec: the `to_string` field of an oddball
(`Oddball::kToStringOffset`) is filled in when the heap is set up, which is not
in src/. It holds the fixed literal text of the value. -/
def Oddball.to_string : Oddball → Value
  | .undefined => .Heap (.String "undefined")
  | .null => .Heap (.String "null")
  | .true_value => .Heap (.String "true")
  | .false_value => .Heap (.String "false")

/-- The field at `Oddball::kToStringOffset`. The graph reads it only behind an
instance-type check; on other objects the read is meaningless. -/
def LoadObjectField_to_string : HeapObject → Value
  | .Oddball kind => kind.to_string
  | _ => UndefinedConstant

/-- The message of a TypeError thrown by the runtime. `kSymbolToString` is
"Cannot convert a Symbol value to a string". -/
inductive MessageTemplate where
  | kSymbolToString
  deriving DecidableEq

/-- How `ToString` ends: it returns a value, or the runtime call throws a
TypeError, or user-level code run by the runtime throws a value. -/
inductive ToStringOutcome where
  | Return (v : Value)
  | ThrowTypeError (m : MessageTemplate)
  | Exception (e : Value)
  deriving DecidableEq

/-- The calls `ToString` makes. -/
inductive ToStringEvent where
  | NumberToString (input : Value)
  | Runtime_ToString (input : Value)
  deriving DecidableEq

/-- The collaborators of `ToString`: the number formatter, and the conversion
of a receiver (ToPrimitive with the String hint, then ToString of the result),
which runs user-level code. -/
structure ToStringCollaborators (σ : Type) where
  NumberToString : σ → Value → Value × σ
  ReceiverToString : σ → Value → Completion × σ

/-- The state `ToString` runs in. -/
structure ToStringExec (σ : Type) where
  world : σ
  trace : List ToStringEvent

/-- The call `NumberToString(context, input)`. -/
def NumberToString {σ : Type} (f : ToStringCollaborators σ) (s : ToStringExec σ) (input : Value) :
    Value × ToStringExec σ :=
  let r := f.NumberToString s.world input
  (r.1, { world := r.2, trace := s.trace ++ [ToStringEvent.NumberToString input] })

/-- Modelled from the spec: `Runtime::kToString` is not in src/. It is the
ToString of the specification: String → itself; SmallInteger/FloatNumber →
the formatted text; Null/Undefined (and the booleans) → their fixed literal
text; Symbol → fail with kind CannotConvertSymbolToString; Receiver →
ToPrimitive with the String hint, then ToString of that result. -/
def Runtime_ToString {σ : Type} (f : ToStringCollaborators σ) (w : σ) (input : Value) :
    ToStringOutcome × σ :=
  match input with
  | .Smi _ => (.Return (f.NumberToString w input).1, (f.NumberToString w input).2)
  | .Heap (.HeapNumber _) => (.Return (f.NumberToString w input).1, (f.NumberToString w input).2)
  | .Heap (.String _) => (.Return input, w)
  | .Heap (.Oddball kind) => (.Return kind.to_string, w)
  | .Heap (.Symbol _) => (.ThrowTypeError .kSymbolToString, w)
  | .Heap (.JSReceiver _ _) =>
    match f.ReceiverToString w input with
    | (.normal v, w1) => (.Return v, w1)
    | (.throw e, w1) => (.Exception e, w1)

/-- The call `CallRuntime(Runtime::kToString, context, input)`. -/
def CallRuntime_ToString {σ : Type} (f : ToStringCollaborators σ) (s : ToStringExec σ)
    (input : Value) : ToStringOutcome × ToStringExec σ :=
  let r := Runtime_ToString f s.world input
  (r.1, { world := r.2, trace := s.trace ++ [ToStringEvent.Runtime_ToString input] })

/-- The label `is_number` of `TF_BUILTIN(ToString)`. -/
def is_number {σ : Type} (f : ToStringCollaborators σ) (input : Value) (s : ToStringExec σ) :
    ToStringOutcome × ToStringExec σ :=
  let r := NumberToString f s input
  (.Return r.1, r.2)

/-- The builtin `ToString`. -/
def ToString {σ : Type} (f : ToStringCollaborators σ) (input : Value) (s : ToStringExec σ) :
    ToStringOutcome × ToStringExec σ :=
  match input with
  | .Smi _ => is_number f input s
  | .Heap input_object =>
    let input_map := LoadMap input_object
    let input_instance_type := LoadMapInstanceType input_map
    if IsStringInstanceType input_instance_type then (.Return input, s)
    else if IsHeapNumberMap input_map then is_number f input s
    else if input_instance_type ≠ ODDBALL_TYPE then CallRuntime_ToString f s input
    else (.Return (LoadObjectField_to_string input_object), s)

/-- A formatter for concrete runs: 42 is "42"; receivers convert to
"[object Object]". -/
def sampleFormatter : ToStringCollaborators Unit where
  NumberToString := fun _ input =>
    if input = .Smi 42 then (.Heap (.String "42"), ()) else (.Heap (.String "NaN"), ())
  ReceiverToString := fun _ _ => (.normal (.Heap (.String "[object Object]")), ())

/-- The starting state of `ToString`: nothing called yet. -/
def ToStringExec.start {σ : Type} (w : σ) : ToStringExec σ := { world := w, trace := [] }

/-- An object whose valueOf method throws. -/
def throwingObject : Value :=
  .Heap (.JSReceiver 9 { id := 1, type := .JS_OBJECT, is_callable := false })

/-- The valueOf method of `throwingObject`. -/
def sampleThrower : Value :=
  .Heap (.JSReceiver 10 { id := 2, type := .JS_FUNCTION, is_callable := true })

/-- A world in which every invocation throws 99: `throwingObject` exposes
`sampleThrower` as valueOf, every other property is undefined. -/
def throwingWorld : Collaborators Unit where
  GetProperty := fun _ object key =>
    if object = throwingObject ∧ key = valueOf_string then (.normal sampleThrower, ())
    else (.normal UndefinedConstant, ())
  Call := fun _ _ _ _ => (.throw (.Smi 99), ())
  NonNumberToNumber := fun _ _ => (.throw (.Smi 99), ())

/-! ## Further specification-level descriptions -/

/-- The first method name tried under a hint, in the specification's words:
valueOf for Number, toString for String. -/
def firstName : OrdinaryToPrimitiveHint → Value
  | .kNumber => valueOf_string
  | .kString => toString_string

/-- The second method name tried under a hint: toString for Number, valueOf
for String. -/
def secondName : OrdinaryToPrimitiveHint → Value
  | .kNumber => toString_string
  | .kString => valueOf_string

/-- Modelled from the spec: `Smi::kMinValue` and `Smi::kMaxValue` (objects.h)
are not in src/. The payload of a small integer has 32 bits. -/
def kSmiMinValue : Int := -2147483648

def kSmiMaxValue : Int := 2147483647

/-- A tagged value the machine can hold: the payload of a small integer is in
the Smi range. -/
def Value.inSmiRange : Value → Bool
  | .Smi n => decide (kSmiMinValue ≤ n ∧ n ≤ kSmiMaxValue)
  | .Heap _ => true

/-- Truncation of a rational toward zero. -/
def truncate (q : ℚ) : Int := if 0 ≤ q then ⌊q⌋ else ⌈q⌉

/-- ToInteger of a number, in the specification's words: NaN → 0; +Infinity
and −Infinity are kept; a finite value is truncated toward zero. -/
def ToInteger_stated : Float64 → Float64
  | .nan => .finite 0
  | .inf negative => .inf negative
  | .negZero => .negZero
  | .finite q => .finite (truncate q)

/-- The clamp min(max(t, 0), 2^53−1) of a number that is not NaN. -/
def clampToLength : Float64 → ℚ
  | .nan => 0
  | .inf true => 0
  | .inf false => 9007199254740991
  | .negZero => 0
  | .finite q => min (max q 0) 9007199254740991

/-! ## Classification lemmas -/

theorem instance_type_le_last_primitive (o : HeapObject) :
    LoadInstanceType o ≤ LAST_PRIMITIVE_TYPE ↔ (Value.Heap o).isPrimitive = true := by
  cases o with
  | HeapNumber v =>
    simp [LoadInstanceType, LoadMapInstanceType, LoadMap, heap_number_map, Value.isPrimitive,
      Value.isReceiver, LAST_PRIMITIVE_TYPE, ODDBALL_TYPE, HEAP_NUMBER_TYPE]
  | String v =>
    simp [LoadInstanceType, LoadMapInstanceType, LoadMap, Value.isPrimitive, Value.isReceiver,
      LAST_PRIMITIVE_TYPE, ODDBALL_TYPE, ONE_BYTE_STRING_TYPE]
  | Symbol v =>
    simp [LoadInstanceType, LoadMapInstanceType, LoadMap, Value.isPrimitive, Value.isReceiver,
      LAST_PRIMITIVE_TYPE, ODDBALL_TYPE, SYMBOL_TYPE]
  | Oddball k =>
    cases k <;>
      simp [LoadInstanceType, LoadMapInstanceType, LoadMap, Value.isPrimitive, Value.isReceiver,
        LAST_PRIMITIVE_TYPE]
  | JSReceiver a m =>
    obtain ⟨i, t, cl⟩ := m
    cases t <;>
      simp [LoadInstanceType, LoadMapInstanceType, LoadMap, Value.isPrimitive, Value.isReceiver,
        LAST_PRIMITIVE_TYPE, ODDBALL_TYPE, JSReceiverType.toInstanceType, JS_PROXY_TYPE,
        JS_VALUE_TYPE, JS_OBJECT_TYPE, JS_FUNCTION_TYPE]

theorem isCallableMap_loadMap (o : HeapObject) :
    IsCallableMap (LoadMap o) = (Value.Heap o).isCallable := by
  cases o with
  | Oddball k => cases k <;> rfl
  | _ => rfl

theorem isHeapNumberMap_loadMap (o : HeapObject) :
    IsHeapNumberMap (LoadMap o) = true ↔ ∃ v, o = .HeapNumber v := by
  cases o with
  | HeapNumber v => simp [IsHeapNumberMap, LoadMap]
  | String v =>
    simp [IsHeapNumberMap, LoadMap, heap_number_map, ONE_BYTE_STRING_TYPE, HEAP_NUMBER_TYPE]
  | Symbol v => simp [IsHeapNumberMap, LoadMap, heap_number_map, SYMBOL_TYPE, HEAP_NUMBER_TYPE]
  | Oddball k =>
    cases k <;> simp [IsHeapNumberMap, LoadMap, heap_number_map, ODDBALL_TYPE, HEAP_NUMBER_TYPE]
  | JSReceiver a m =>
    obtain ⟨i, t, cl⟩ := m
    cases t <;>
      simp [IsHeapNumberMap, LoadMap, heap_number_map, HEAP_NUMBER_TYPE,
        JSReceiverType.toInstanceType, JS_PROXY_TYPE, JS_VALUE_TYPE, JS_OBJECT_TYPE,
        JS_FUNCTION_TYPE]

/-! ## OrdinaryToPrimitive: the loop, one name at a time -/

/-- The value `var_result` holds on entry to a round does not matter. -/
theorem loop_var_result_irrelevant {σ : Type} (c : Collaborators σ) (input : Value)
    (names : List Value) (v : Option Value) (s : Exec σ) :
    OrdinaryToPrimitive_loop c input names v s = OrdinaryToPrimitive_loop c input names none s := by
  induction names generalizing v s with
  | nil => simp [OrdinaryToPrimitive_loop]
  | cons name rest ih =>
    simp only [OrdinaryToPrimitive_loop]
    rcases hg : CallStub_GetProperty c s input name with ⟨comp, s1⟩
    cases comp with
    | throw e => rfl
    | normal method =>
      cases method with
      | Smi n => exact ih _ _
      | Heap mo =>
        simp only
        by_cases hc : IsCallableMap (LoadMap mo) = true
        · simp only [hc, if_true]
        · simp only [hc]
          exact ih _ _

/-- One round of the loop is one attempt on the name, in the specification's
sense of callable and primitive. -/
theorem loop_cons {σ : Type} (c : Collaborators σ) (input name : Value) (rest : List Value)
    (v : Option Value) (s : Exec σ) :
    OrdinaryToPrimitive_loop c input (name :: rest) v s =
      match attempt c input name s with
      | .threw e s1 => (.Exception e, s1)
      | .primitive r s2 => (.Return r, s2)
      | .next s1 => OrdinaryToPrimitive_loop c input rest none s1 := by
  simp only [OrdinaryToPrimitive_loop, attempt]
  rcases hg : CallStub_GetProperty c s input name with ⟨comp, s1⟩
  cases comp with
  | throw e => rfl
  | normal method =>
    cases method with
    | Smi n =>
      simp only [Value.isCallable]
      exact loop_var_result_irrelevant c input rest v s1
    | Heap mo =>
      simp only [← isCallableMap_loadMap]
      by_cases hc : IsCallableMap (LoadMap mo) = true
      · simp only [hc, if_true]
        rcases hj : CallJS c s1 (Value.Heap mo) input [] with ⟨comp2, s2⟩
        cases comp2 with
        | throw e => rfl
        | normal result =>
          cases result with
          | Smi n => simp [Value.isPrimitive, Value.isReceiver, return_result]
          | Heap ro =>
            simp only
            by_cases hp : LoadInstanceType ro ≤ LAST_PRIMITIVE_TYPE
            · have hp2 := (instance_type_le_last_primitive ro).1 hp
              simp [hp, hp2, return_result]
            · have hp2 : (Value.Heap ro).isPrimitive = false := by
                cases h : (Value.Heap ro).isPrimitive
                · rfl
                · exact absurd ((instance_type_le_last_primitive ro).2 h) hp
              simp only [hp, if_false, hp2]
              exact loop_var_result_irrelevant c input rest _ s2
      · simp only [hc]
        exact loop_var_result_irrelevant c input rest v s1

/-- An attempt spelled out on the collaborators' results. -/
theorem attempt_eq {σ : Type} (c : Collaborators σ) (input name : Value) (s : Exec σ) :
    attempt c input name s =
      match c.GetProperty s.world input name with
      | (.throw e, w1) =>
        .threw e { world := w1, trace := s.trace ++ [Event.GetProperty input name] }
      | (.normal m, w1) =>
        if m.isCallable then
          match c.Call w1 m input [] with
          | (.throw e, w2) =>
            .threw e { world := w2,
                       trace := s.trace ++ [Event.GetProperty input name, Event.Call m input []] }
          | (.normal r, w2) =>
            if r.isPrimitive then
              .primitive r { world := w2,
                             trace := s.trace ++ [Event.GetProperty input name, Event.Call m input []] }
            else
              .next { world := w2,
                      trace := s.trace ++ [Event.GetProperty input name, Event.Call m input []] }
        else .next { world := w1, trace := s.trace ++ [Event.GetProperty input name] } := by
  simp only [attempt, CallStub_GetProperty, CallJS]
  rcases hg : c.GetProperty s.world input name with ⟨comp, w1⟩
  cases comp with
  | throw e => rfl
  | normal m =>
    simp only
    by_cases hc : m.isCallable = true
    · simp only [hc, if_true]
      rcases hj : c.Call w1 m input [] with ⟨comp2, w2⟩
      cases comp2 with
      | throw e => simp
      | normal r => simp
    · simp [hc]

theorem attempt_primitive_iff {σ : Type} (c : Collaborators σ) (input name : Value) (s : Exec σ)
    (r : Value) (w' : σ) :
    (∃ s', attempt c input name s = .primitive r s' ∧ s'.world = w') ↔
      YieldsPrimitive c input name s.world r w' := by
  rw [attempt_eq]
  unfold YieldsPrimitive
  rcases hg : c.GetProperty s.world input name with ⟨comp, w1⟩
  cases comp with
  | throw e => simp
  | normal m =>
    simp only
    by_cases hc : m.isCallable = true
    · simp only [hc, if_true]
      rcases hj : c.Call w1 m input [] with ⟨comp2, w2⟩
      cases comp2 with
      | throw e =>
        constructor
        · rintro ⟨s', h, _⟩
          simp at h
        · rintro ⟨m', w1', h1, _, h2, _⟩
          simp only [Prod.mk.injEq, Completion.normal.injEq] at h1
          obtain ⟨rfl, rfl⟩ := h1
          rw [hj] at h2
          simp at h2
      | normal x =>
        simp only
        by_cases hp : x.isPrimitive = true
        · simp only [hp, if_true]
          constructor
          · rintro ⟨s', h, hw⟩
            simp only [Attempt.primitive.injEq] at h
            obtain ⟨rfl, rfl⟩ := h
            exact ⟨m, w1, rfl, hc, by rw [hj, ← hw], hp⟩
          · rintro ⟨m', w1', h1, _, h2, _⟩
            simp only [Prod.mk.injEq, Completion.normal.injEq] at h1
            obtain ⟨rfl, rfl⟩ := h1
            rw [hj] at h2
            simp only [Prod.mk.injEq, Completion.normal.injEq] at h2
            obtain ⟨rfl, rfl⟩ := h2
            exact ⟨_, rfl, rfl⟩
        · simp only [hp]
          constructor
          · rintro ⟨s', h, _⟩
            simp at h
          · rintro ⟨m', w1', h1, _, h2, h3⟩
            simp only [Prod.mk.injEq, Completion.normal.injEq] at h1
            obtain ⟨rfl, rfl⟩ := h1
            rw [hj] at h2
            simp only [Prod.mk.injEq, Completion.normal.injEq] at h2
            obtain ⟨rfl, rfl⟩ := h2
            exact absurd h3 hp
    · simp only [hc]
      constructor
      · rintro ⟨s', h, _⟩
        simp at h
      · rintro ⟨m', w1', h1, h2, _⟩
        simp only [Prod.mk.injEq, Completion.normal.injEq] at h1
        obtain ⟨rfl, rfl⟩ := h1
        exact absurd h2 hc

theorem attempt_next_iff {σ : Type} (c : Collaborators σ) (input name : Value) (s : Exec σ)
    (w' : σ) :
    (∃ s', attempt c input name s = .next s' ∧ s'.world = w') ↔
      PassedOver c input name s.world w' := by
  rw [attempt_eq]
  unfold PassedOver
  rcases hg : c.GetProperty s.world input name with ⟨comp, w1⟩
  cases comp with
  | throw e => simp
  | normal m =>
    simp only
    by_cases hc : m.isCallable = true
    · simp only [hc, if_true]
      rcases hj : c.Call w1 m input [] with ⟨comp2, w2⟩
      cases comp2 with
      | throw e =>
        constructor
        · rintro ⟨s', h, _⟩
          simp at h
        · rintro ⟨m', w1', h1, h2⟩
          simp only [Prod.mk.injEq, Completion.normal.injEq] at h1
          obtain ⟨rfl, rfl⟩ := h1
          rcases h2 with ⟨h3, _⟩ | ⟨_, x, h3, _⟩
          · rw [hc] at h3
            exact absurd h3 (by decide)
          · rw [hj] at h3
            simp at h3
      | normal x =>
        simp only
        by_cases hp : x.isPrimitive = true
        · simp only [hp, if_true]
          constructor
          · rintro ⟨s', h, _⟩
            simp at h
          · rintro ⟨m', w1', h1, h2⟩
            simp only [Prod.mk.injEq, Completion.normal.injEq] at h1
            obtain ⟨rfl, rfl⟩ := h1
            rcases h2 with ⟨h3, _⟩ | ⟨_, y, h3, h4⟩
            · rw [hc] at h3
              exact absurd h3 (by decide)
            · rw [hj] at h3
              simp only [Prod.mk.injEq, Completion.normal.injEq] at h3
              obtain ⟨rfl, rfl⟩ := h3
              rw [hp] at h4
              exact absurd h4 (by decide)
        · simp only [hp]
          simp only [Bool.not_eq_true] at hp
          constructor
          · rintro ⟨s', h, hw⟩
            simp only [Bool.false_eq_true, if_false, Attempt.next.injEq] at h
            subst h
            exact ⟨m, w1, rfl, Or.inr ⟨hc, x, by rw [hj, ← hw], hp⟩⟩
          · rintro ⟨m', w1', h1, h2⟩
            simp only [Prod.mk.injEq, Completion.normal.injEq] at h1
            obtain ⟨rfl, rfl⟩ := h1
            rcases h2 with ⟨h3, _⟩ | ⟨_, y, h3, h4⟩
            · rw [hc] at h3
              exact absurd h3 (by decide)
            · rw [hj] at h3
              simp only [Prod.mk.injEq, Completion.normal.injEq] at h3
              obtain ⟨rfl, rfl⟩ := h3
              exact ⟨_, rfl, rfl⟩
    · simp only [hc]
      simp only [Bool.not_eq_true] at hc
      constructor
      · rintro ⟨s', h, hw⟩
        simp only [Bool.false_eq_true, if_false, Attempt.next.injEq] at h
        subst h
        exact ⟨m, w1, rfl, Or.inl ⟨hc, hw.symm⟩⟩
      · rintro ⟨m', w1', h1, h2⟩
        simp only [Prod.mk.injEq, Completion.normal.injEq] at h1
        obtain ⟨rfl, rfl⟩ := h1
        rcases h2 with ⟨_, h3⟩ | ⟨h3, _⟩
        · exact ⟨{ world := w1, trace := s.trace ++ [Event.GetProperty input name] },
            by simp, h3.symm⟩
        · rw [hc] at h3
          exact absurd h3 (by decide)

/-- The two rounds of the loop, as two attempts. -/
theorem loop_two {σ : Type} (c : Collaborators σ) (input first second : Value) (s : Exec σ) :
    OrdinaryToPrimitive_loop c input [first, second] none s =
      match attempt c input first s with
      | .threw e s1 => (.Exception e, s1)
      | .primitive r s2 => (.Return r, s2)
      | .next s1 =>
        match attempt c input second s1 with
        | .threw e s2 => (.Exception e, s2)
        | .primitive r s2 => (.Return r, s2)
        | .next s2 => (.TailCallRuntime .kThrowCannotConvertToPrimitive, s2) := by
  rw [loop_cons]
  cases attempt c input first s with
  | threw e s1 => rfl
  | primitive r s2 => rfl
  | next s1 =>
    simp only
    rw [loop_cons]
    cases attempt c input second s1 with
    | threw e s1 => rfl
    | primitive r s2 => rfl
    | next s1 => rfl

/-- The loop over two names returns `r` exactly when the first name to yield a
primitive yields `r`. -/
theorem loop_two_returns_iff {σ : Type} (c : Collaborators σ) (input first second : Value)
    (s : Exec σ) (r : Value) (w' : σ) :
    ((OrdinaryToPrimitive_loop c input [first, second] none s).1 = .Return r ∧
      (OrdinaryToPrimitive_loop c input [first, second] none s).2.world = w') ↔
      FirstPrimitive c input first second s.world r w' := by
  rw [loop_two]
  unfold FirstPrimitive
  cases h1 : attempt c input first s with
  | threw e s1 =>
    simp only
    constructor
    · rintro ⟨h, _⟩
      simp at h
    · rintro (h | ⟨w1, h, _⟩)
      · obtain ⟨s', h', _⟩ := (attempt_primitive_iff c input first s r w').2 h
        rw [h1] at h'
        simp at h'
      · obtain ⟨s', h', _⟩ := (attempt_next_iff c input first s w1).2 h
        rw [h1] at h'
        simp at h'
  | primitive r0 s2 =>
    simp only
    constructor
    · rintro ⟨h, hw⟩
      simp only [Outcome.Return.injEq] at h
      subst h
      exact Or.inl ((attempt_primitive_iff c input first s r0 w').1 ⟨s2, h1, hw⟩)
    · rintro (h | ⟨w1, h, _⟩)
      · obtain ⟨s', h', hw⟩ := (attempt_primitive_iff c input first s r w').2 h
        rw [h1] at h'
        simp only [Attempt.primitive.injEq] at h'
        obtain ⟨rfl, rfl⟩ := h'
        exact ⟨rfl, hw⟩
      · obtain ⟨s', h', _⟩ := (attempt_next_iff c input first s w1).2 h
        rw [h1] at h'
        simp at h'
  | next s1 =>
    simp only
    have key : ∀ w1, PassedOver c input first s.world w1 → w1 = s1.world := by
      intro w1 h
      obtain ⟨s', h', hw⟩ := (attempt_next_iff c input first s w1).2 h
      rw [h1] at h'
      simp only [Attempt.next.injEq] at h'
      subst h'
      exact hw.symm
    have hpass : PassedOver c input first s.world s1.world :=
      (attempt_next_iff c input first s s1.world).1 ⟨s1, h1, rfl⟩
    cases h2 : attempt c input second s1 with
    | threw e s2 =>
      simp only
      constructor
      · rintro ⟨h, _⟩
        simp at h
      · rintro (h | ⟨w1, h, hy⟩)
        · obtain ⟨s', h', _⟩ := (attempt_primitive_iff c input first s r w').2 h
          rw [h1] at h'
          simp at h'
        · rw [key w1 h] at hy
          obtain ⟨s', h', _⟩ := (attempt_primitive_iff c input second s1 r w').2 hy
          rw [h2] at h'
          simp at h'
    | primitive r0 s2 =>
      simp only
      constructor
      · rintro ⟨h, hw⟩
        simp only [Outcome.Return.injEq] at h
        subst h
        exact Or.inr ⟨s1.world, hpass,
          (attempt_primitive_iff c input second s1 r0 w').1 ⟨s2, h2, hw⟩⟩
      · rintro (h | ⟨w1, h, hy⟩)
        · obtain ⟨s', h', _⟩ := (attempt_primitive_iff c input first s r w').2 h
          rw [h1] at h'
          simp at h'
        · rw [key w1 h] at hy
          obtain ⟨s', h', hw⟩ := (attempt_primitive_iff c input second s1 r w').2 hy
          rw [h2] at h'
          simp only [Attempt.primitive.injEq] at h'
          obtain ⟨rfl, rfl⟩ := h'
          exact ⟨rfl, hw⟩
    | next s2 =>
      simp only
      constructor
      · rintro ⟨h, _⟩
        simp at h
      · rintro (h | ⟨w1, h, hy⟩)
        · obtain ⟨s', h', _⟩ := (attempt_primitive_iff c input first s r w').2 h
          rw [h1] at h'
          simp at h'
        · rw [key w1 h] at hy
          obtain ⟨s', h', _⟩ := (attempt_primitive_iff c input second s1 r w').2 hy
          rw [h2] at h'
          simp at h'

/-- Every attempt starts with the lookup of its name. -/
theorem attempt_trace {σ : Type} (c : Collaborators σ) (input name : Value) (s : Exec σ) :
    ∃ rest, (attempt c input name s).state.trace =
      s.trace ++ Event.GetProperty input name :: rest := by
  rw [attempt_eq]
  rcases c.GetProperty s.world input name with ⟨comp, w1⟩
  cases comp with
  | throw e => exact ⟨[], rfl⟩
  | normal m =>
    simp only
    by_cases hc : m.isCallable = true
    · simp only [hc, if_true]
      rcases c.Call w1 m input [] with ⟨comp2, w2⟩
      cases comp2 with
      | throw e => exact ⟨[Event.Call m input []], rfl⟩
      | normal x =>
        simp only
        by_cases hp : x.isPrimitive = true
        · simp only [hp, if_true]
          exact ⟨[Event.Call m input []], rfl⟩
        · simp only [hp]
          exact ⟨[Event.Call m input []], rfl⟩
    · simp only [hc]
      exact ⟨[], rfl⟩

/-- The loop over two names ends in the throwing tail call exactly when both
names are passed over, one after the other. -/
theorem loop_two_fails_iff {σ : Type} (c : Collaborators σ) (input first second : Value)
    (s : Exec σ) :
    (OrdinaryToPrimitive_loop c input [first, second] none s).1 =
        .TailCallRuntime .kThrowCannotConvertToPrimitive ↔
      ∃ w1 w2, PassedOver c input first s.world w1 ∧ PassedOver c input second w1 w2 := by
  rw [loop_two]
  cases h1 : attempt c input first s with
  | threw e s1 =>
    simp only
    constructor
    · intro h
      simp at h
    · rintro ⟨w1, w2, h, _⟩
      obtain ⟨s', h', _⟩ := (attempt_next_iff c input first s w1).2 h
      rw [h1] at h'
      simp at h'
  | primitive r0 s2 =>
    simp only
    constructor
    · intro h
      simp at h
    · rintro ⟨w1, w2, h, _⟩
      obtain ⟨s', h', _⟩ := (attempt_next_iff c input first s w1).2 h
      rw [h1] at h'
      simp at h'
  | next s1 =>
    simp only
    have key : ∀ w1, PassedOver c input first s.world w1 → w1 = s1.world := by
      intro w1 h
      obtain ⟨s', h', hw⟩ := (attempt_next_iff c input first s w1).2 h
      rw [h1] at h'
      simp only [Attempt.next.injEq] at h'
      subst h'
      exact hw.symm
    have hpass : PassedOver c input first s.world s1.world :=
      (attempt_next_iff c input first s s1.world).1 ⟨s1, h1, rfl⟩
    cases h2 : attempt c input second s1 with
    | threw e s2 =>
      simp only
      constructor
      · intro h
        simp at h
      · rintro ⟨w1, w2, h, hy⟩
        rw [key w1 h] at hy
        obtain ⟨s', h', _⟩ := (attempt_next_iff c input second s1 w2).2 hy
        rw [h2] at h'
        simp at h'
    | primitive r0 s2 =>
      simp only
      constructor
      · intro h
        simp at h
      · rintro ⟨w1, w2, h, hy⟩
        rw [key w1 h] at hy
        obtain ⟨s', h', _⟩ := (attempt_next_iff c input second s1 w2).2 hy
        rw [h2] at h'
        simp at h'
    | next s2 =>
      simp only
      constructor
      · intro _
        exact ⟨s1.world, s2.world, hpass,
          (attempt_next_iff c input second s1 s2.world).1 ⟨s2, h2, rfl⟩⟩
      · intro _
        trivial

/-- When the first name is passed over, the second name is looked up. -/
theorem loop_two_second_tried {σ : Type} (c : Collaborators σ) (input first second : Value)
    (s : Exec σ) (w1 : σ) (h : PassedOver c input first s.world w1) :
    Event.GetProperty input second ∈
      (OrdinaryToPrimitive_loop c input [first, second] none s).2.trace := by
  rw [loop_two]
  obtain ⟨s1, h1, _⟩ := (attempt_next_iff c input first s w1).2 h
  rw [h1]
  simp only
  obtain ⟨rest, hrest⟩ := attempt_trace c input second s1
  cases h2 : attempt c input second s1 with
  | threw e s2 =>
    rw [h2] at hrest
    simp only [Attempt.state] at hrest
    simp [hrest]
  | primitive r s2 =>
    rw [h2] at hrest
    simp only [Attempt.state] at hrest
    simp [hrest]
  | next s2 =>
    rw [h2] at hrest
    simp only [Attempt.state] at hrest
    simp [hrest]

/-! ## OrdinaryToPrimitive: the claims -/

/-- C1: under the Number hint the names are tried in the order valueOf,
toString and under the String hint in the order toString, valueOf; in both
cases OrdinaryToPrimitive returns `r` exactly when the first name whose
property is callable and whose invocation (receiver = input, no arguments)
yields a primitive yields `r`. An object exposing valueOf→10 and toString→"x"
gives 10 under the Number hint and "x" under the String hint. -/
theorem OrdinaryToPrimitive_first_primitive_wins :
    (∀ (σ : Type) (c : Collaborators σ) (input : Value) (s : Exec σ) (r : Value) (w' : σ),
      ((Generate_OrdinaryToPrimitive c .kNumber input s).1 = .Return r ∧
        (Generate_OrdinaryToPrimitive c .kNumber input s).2.world = w') ↔
          FirstPrimitive c input valueOf_string toString_string s.world r w') ∧
    (∀ (σ : Type) (c : Collaborators σ) (input : Value) (s : Exec σ) (r : Value) (w' : σ),
      ((Generate_OrdinaryToPrimitive c .kString input s).1 = .Return r ∧
        (Generate_OrdinaryToPrimitive c .kString input s).2.world = w') ↔
          FirstPrimitive c input toString_string valueOf_string s.world r w') ∧
    (Generate_OrdinaryToPrimitive sampleWorld .kNumber sampleObject (Exec.start ())).1 =
      .Return (.Smi 10) ∧
    (Generate_OrdinaryToPrimitive sampleWorld .kString sampleObject (Exec.start ())).1 =
      .Return (.Heap (.String "x")) := by
  refine ⟨?_, ?_, by decide, by decide⟩
  · intro σ c input s r w'
    exact loop_two_returns_iff c input valueOf_string toString_string s r w'
  · intro σ c input s r w'
    exact loop_two_returns_iff c input toString_string valueOf_string s r w'

/-- Witness for C1: in the sample world the Number-hint run returns 10, so
valueOf is the first name to yield a primitive there. -/
theorem OrdinaryToPrimitive_first_primitive_wins_witness :
    FirstPrimitive sampleWorld sampleObject valueOf_string toString_string () (.Smi 10) () :=
  (OrdinaryToPrimitive_first_primitive_wins.1 Unit sampleWorld sampleObject (Exec.start ())
    (.Smi 10) ()).1 ⟨by decide, rfl⟩

/-- C2: OrdinaryToPrimitive ends in the throw of CannotConvertToPrimitive
exactly when both method names, in the hint's order, are passed over: each
lookup returns a property that is not callable (a small integer included) or
is callable and returns a non-primitive. A first name that is passed over does
not end the conversion: the second name is still looked up. -/
theorem OrdinaryToPrimitive_fails_iff_both_passed_over :
    (∀ (σ : Type) (c : Collaborators σ) (input : Value) (s : Exec σ),
      (Generate_OrdinaryToPrimitive c .kNumber input s).1 =
          .TailCallRuntime .kThrowCannotConvertToPrimitive ↔
        ∃ w1 w2, PassedOver c input valueOf_string s.world w1 ∧
          PassedOver c input toString_string w1 w2) ∧
    (∀ (σ : Type) (c : Collaborators σ) (input : Value) (s : Exec σ),
      (Generate_OrdinaryToPrimitive c .kString input s).1 =
          .TailCallRuntime .kThrowCannotConvertToPrimitive ↔
        ∃ w1 w2, PassedOver c input toString_string s.world w1 ∧
          PassedOver c input valueOf_string w1 w2) ∧
    (∀ (σ : Type) (c : Collaborators σ) (input : Value) (s : Exec σ) (w1 : σ),
      PassedOver c input valueOf_string s.world w1 →
        Event.GetProperty input toString_string ∈
          (Generate_OrdinaryToPrimitive c .kNumber input s).2.trace) ∧
    (∀ (σ : Type) (c : Collaborators σ) (input : Value) (s : Exec σ) (w1 : σ),
      PassedOver c input toString_string s.world w1 →
        Event.GetProperty input valueOf_string ∈
          (Generate_OrdinaryToPrimitive c .kString input s).2.trace) := by
  refine ⟨?_, ?_, ?_, ?_⟩
  · intro σ c input s
    exact loop_two_fails_iff c input valueOf_string toString_string s
  · intro σ c input s
    exact loop_two_fails_iff c input toString_string valueOf_string s
  · intro σ c input s w1 h
    exact loop_two_second_tried c input valueOf_string toString_string s w1 h
  · intro σ c input s w1 h
    exact loop_two_second_tried c input toString_string valueOf_string s w1 h

/-- Witness for C2: an object without conversion methods (both lookups give
undefined) makes the Number-hint run end in the throw, and toString is looked
up after valueOf was passed over. -/
theorem OrdinaryToPrimitive_fails_iff_both_passed_over_witness :
    (Generate_OrdinaryToPrimitive sampleWorld .kNumber bareObject (Exec.start ())).1 =
        .TailCallRuntime .kThrowCannotConvertToPrimitive ∧
      Event.GetProperty bareObject toString_string ∈
        (Generate_OrdinaryToPrimitive sampleWorld .kNumber bareObject (Exec.start ())).2.trace :=
  ⟨(OrdinaryToPrimitive_fails_iff_both_passed_over.1 Unit sampleWorld bareObject
      (Exec.start ())).2
      ⟨(), (), ⟨UndefinedConstant, (), by decide, Or.inl ⟨by decide, rfl⟩⟩,
        ⟨UndefinedConstant, (), by decide, Or.inl ⟨by decide, rfl⟩⟩⟩,
    OrdinaryToPrimitive_fails_iff_both_passed_over.2.2.1 Unit sampleWorld bareObject
      (Exec.start ()) () ⟨UndefinedConstant, (), by decide, Or.inl ⟨by decide, rfl⟩⟩⟩

/-- The calls an attempt makes: it only invokes callable values. -/
theorem attempt_calls_callable {σ : Type} (c : Collaborators σ) (input name : Value)
    (s : Exec σ) :
    ∃ new, (attempt c input name s).state.trace = s.trace ++ new ∧
      ∀ f recv args, Event.Call f recv args ∈ new → f.isCallable = true := by
  rw [attempt_eq]
  rcases c.GetProperty s.world input name with ⟨comp, w1⟩
  cases comp with
  | throw e => exact ⟨[Event.GetProperty input name], rfl, by simp⟩
  | normal m =>
    simp only
    by_cases hc : m.isCallable = true
    · simp only [hc, if_true]
      have hnew : ∀ f recv args,
          Event.Call f recv args ∈ [Event.GetProperty input name, Event.Call m input []] →
            f.isCallable = true := by
        intro f recv args hmem
        simp only [List.mem_cons, Event.Call.injEq, List.mem_singleton, reduceCtorEq,
          false_or, List.not_mem_nil, or_false] at hmem
        rw [hmem.1]
        exact hc
      rcases c.Call w1 m input [] with ⟨comp2, w2⟩
      cases comp2 with
      | throw e => exact ⟨_, rfl, hnew⟩
      | normal x =>
        simp only
        by_cases hp : x.isPrimitive = true
        · simp only [hp, if_true]
          exact ⟨_, rfl, hnew⟩
        · simp only [hp]
          exact ⟨_, rfl, hnew⟩
    · simp only [hc]
      exact ⟨[Event.GetProperty input name], rfl, by simp⟩

/-- The calls OrdinaryToPrimitive makes: it only invokes callable values. -/
theorem loop_calls_callable {σ : Type} (c : Collaborators σ) (input : Value)
    (names : List Value) (v : Option Value) (s : Exec σ) :
    ∃ new, (OrdinaryToPrimitive_loop c input names v s).2.trace = s.trace ++ new ∧
      ∀ f recv args, Event.Call f recv args ∈ new → f.isCallable = true := by
  induction names generalizing v s with
  | nil => exact ⟨[], by simp [OrdinaryToPrimitive_loop], by simp⟩
  | cons name rest ih =>
    rw [loop_cons]
    obtain ⟨new, hnew, hcalls⟩ := attempt_calls_callable c input name s
    cases h : attempt c input name s with
    | threw e s1 =>
      rw [h] at hnew
      exact ⟨new, hnew, hcalls⟩
    | primitive r s1 =>
      rw [h] at hnew
      exact ⟨new, hnew, hcalls⟩
    | next s1 =>
      rw [h] at hnew
      simp only [Attempt.state] at hnew
      simp only
      obtain ⟨new2, hnew2, hcalls2⟩ := ih none s1
      refine ⟨new ++ new2, ?_, ?_⟩
      · rw [hnew2, hnew, List.append_assoc]
      · intro f recv args hmem
        rcases List.mem_append.1 hmem with hm | hm
        · exact hcalls f recv args hm
        · exact hcalls2 f recv args hm

/-! ## NonPrimitiveToPrimitive: the claims -/

/-- C3: when the property keyed by the to-primitive symbol is null or
undefined, NonPrimitiveToPrimitive with hint `h` is OrdinaryToPrimitive with
the hint Default→Number, Number→Number, String→String, run in the state left
by the lookup; the capability is not invoked. -/
theorem NonPrimitiveToPrimitive_absent_capability {σ : Type} (c : Collaborators σ)
    (hint : ToPrimitiveHint) (input : Value) (s : Exec σ) (x : Value) (w1 : σ)
    (hget : c.GetProperty s.world input to_primitive_symbol = (.normal x, w1))
    (habsent : x = NullConstant ∨ x = UndefinedConstant) :
    Generate_NonPrimitiveToPrimitive c hint input s =
        Generate_OrdinaryToPrimitive c (ordinaryHint hint) input
          { world := w1, trace := s.trace ++ [Event.GetProperty input to_primitive_symbol] } ∧
      ∃ new, (Generate_NonPrimitiveToPrimitive c hint input s).2.trace =
          s.trace ++ Event.GetProperty input to_primitive_symbol :: new ∧
        ∀ recv args, Event.Call x recv args ∉ new := by
  have hmap : (if hint = ToPrimitiveHint.kString then OrdinaryToPrimitiveHint.kString
      else OrdinaryToPrimitiveHint.kNumber) = ordinaryHint hint := by
    cases hint <;> rfl
  have heq : Generate_NonPrimitiveToPrimitive c hint input s =
      Generate_OrdinaryToPrimitive c (ordinaryHint hint) input
        { world := w1, trace := s.trace ++ [Event.GetProperty input to_primitive_symbol] } := by
    simp only [Generate_NonPrimitiveToPrimitive, CallStub_GetProperty, hget, hmap]
    rcases habsent with h | h
    · simp [h]
    · simp [h]
  refine ⟨heq, ?_⟩
  rw [heq]
  obtain ⟨new, hnew, hcalls⟩ := loop_calls_callable c input (method_names (ordinaryHint hint))
    none { world := w1, trace := s.trace ++ [Event.GetProperty input to_primitive_symbol] }
  refine ⟨new, ?_, ?_⟩
  · simp only [Generate_OrdinaryToPrimitive, hnew, List.append_assoc, List.singleton_append]
  · intro recv args hmem
    have hcallable := hcalls x recv args hmem
    rcases habsent with h | h
    · rw [h] at hcallable
      exact absurd hcallable (by decide)
    · rw [h] at hcallable
      exact absurd hcallable (by decide)

/-- Witness for C3: a plain object has no to-primitive capability in the
sample world, so the Default-hint conversion is the Number-hint
OrdinaryToPrimitive. -/
theorem NonPrimitiveToPrimitive_absent_capability_witness :
    Generate_NonPrimitiveToPrimitive sampleWorld .kDefault sampleObject (Exec.start ()) =
        Generate_OrdinaryToPrimitive sampleWorld .kNumber sampleObject
          { world := (),
            trace := [] ++ [Event.GetProperty sampleObject to_primitive_symbol] } ∧
      ∃ new, (Generate_NonPrimitiveToPrimitive sampleWorld .kDefault sampleObject
            (Exec.start ())).2.trace =
          [] ++ Event.GetProperty sampleObject to_primitive_symbol :: new ∧
        ∀ recv args, Event.Call UndefinedConstant recv args ∉ new :=
  NonPrimitiveToPrimitive_absent_capability sampleWorld .kDefault sampleObject (Exec.start ())
    UndefinedConstant () (by decide) (Or.inr rfl)

/-- C4: when the to-primitive capability is neither null nor undefined and its
invocation returns a non-primitive, NonPrimitiveToPrimitive ends in the throw
of CannotConvertToPrimitive right after that invocation: the only lookup made
is the one of the to-primitive symbol, never valueOf or toString. -/
theorem NonPrimitiveToPrimitive_non_primitive_result {σ : Type} (c : Collaborators σ)
    (hint : ToPrimitiveHint) (input : Value) (s : Exec σ) (x : Value) (w1 : σ) (r : Value)
    (w2 : σ)
    (hget : c.GetProperty s.world input to_primitive_symbol = (.normal x, w1))
    (hnull : x ≠ NullConstant) (hundefined : x ≠ UndefinedConstant)
    (hcall : c.Call w1 x input [ToPrimitiveHintString hint] = (.normal r, w2))
    (hreceiver : r.isPrimitive = false) :
    Generate_NonPrimitiveToPrimitive c hint input s =
        (.TailCallRuntime .kThrowCannotConvertToPrimitive,
          { world := w2,
            trace := s.trace ++ [Event.GetProperty input to_primitive_symbol,
              Event.Call x input [ToPrimitiveHintString hint]] }) ∧
      ∀ object key, Event.GetProperty object key ∈
          [Event.GetProperty input to_primitive_symbol,
            Event.Call x input [ToPrimitiveHintString hint]] →
        key ≠ valueOf_string ∧ key ≠ toString_string := by
  constructor
  · simp only [Generate_NonPrimitiveToPrimitive, CallStub_GetProperty, hget, hnull, hundefined,
      if_false, CallJS, hcall]
    cases r with
    | Smi n => simp [Value.isPrimitive, Value.isReceiver] at hreceiver
    | Heap ro =>
      have hp : ¬ LoadInstanceType ro ≤ LAST_PRIMITIVE_TYPE := by
        intro h
        rw [(instance_type_le_last_primitive ro).1 h] at hreceiver
        exact absurd hreceiver (by decide)
      simp [hp]
  · intro object key hmem
    simp only [List.mem_cons, Event.GetProperty.injEq, List.mem_singleton, reduceCtorEq,
      List.not_mem_nil, or_false] at hmem
    rw [hmem.2]
    exact ⟨by decide, by decide⟩

/-- Witness for C4: the capability of `stubbornObject` returns an object, and
the conversion ends in the throw. -/
theorem NonPrimitiveToPrimitive_non_primitive_result_witness :
    Generate_NonPrimitiveToPrimitive sampleWorld .kNumber stubbornObject (Exec.start ()) =
        (.TailCallRuntime .kThrowCannotConvertToPrimitive,
          { world := (),
            trace := [] ++ [Event.GetProperty stubbornObject to_primitive_symbol,
              Event.Call stubbornToPrimitive stubbornObject
                [ToPrimitiveHintString .kNumber]] }) ∧
      ∀ object key, Event.GetProperty object key ∈
          [Event.GetProperty stubbornObject to_primitive_symbol,
            Event.Call stubbornToPrimitive stubbornObject [ToPrimitiveHintString .kNumber]] →
        key ≠ valueOf_string ∧ key ≠ toString_string :=
  NonPrimitiveToPrimitive_non_primitive_result sampleWorld .kNumber stubbornObject
    (Exec.start ()) stubbornToPrimitive () stubbornToPrimitive () (by decide) (by decide)
    (by decide) (by decide) (by decide)

/-- C5: when the to-primitive capability `x` is neither null nor undefined,
NonPrimitiveToPrimitive makes exactly one lookup and one invocation: `x` is
invoked once, with receiver = input and the string form of the hint ("default",
"number" or "string") as only argument. If that invocation returns a primitive
`r` (a small integer, or a heap value whose instance type is at most
`LAST_PRIMITIVE_TYPE`), the builtin returns exactly `r`. -/
theorem NonPrimitiveToPrimitive_invokes_capability_once {σ : Type} (c : Collaborators σ)
    (hint : ToPrimitiveHint) (input : Value) (s : Exec σ) (x : Value) (w1 : σ)
    (hget : c.GetProperty s.world input to_primitive_symbol = (.normal x, w1))
    (hnull : x ≠ NullConstant) (hundefined : x ≠ UndefinedConstant) :
    (Generate_NonPrimitiveToPrimitive c hint input s).2.trace =
        s.trace ++ [Event.GetProperty input to_primitive_symbol,
          Event.Call x input [ToPrimitiveHintString hint]] ∧
      (∀ r w2, c.Call w1 x input [ToPrimitiveHintString hint] = (.normal r, w2) →
        ((∃ n, r = .Smi n) ∨ ∃ o, r = .Heap o ∧ LoadInstanceType o ≤ LAST_PRIMITIVE_TYPE) →
          (Generate_NonPrimitiveToPrimitive c hint input s).1 = .Return r ∧
            (Generate_NonPrimitiveToPrimitive c hint input s).2.world = w2) ∧
      ToPrimitiveHintString hint =
        (match hint with
          | .kDefault => .Heap (.String "default")
          | .kNumber => .Heap (.String "number")
          | .kString => .Heap (.String "string")) := by
  refine ⟨?_, ?_, ?_⟩
  · simp only [Generate_NonPrimitiveToPrimitive, CallStub_GetProperty, hget, hnull, hundefined,
      if_false, CallJS]
    rcases c.Call w1 x input [ToPrimitiveHintString hint] with ⟨comp, w2⟩
    cases comp with
    | throw e => simp
    | normal r =>
      cases r with
      | Smi n => simp
      | Heap ro =>
        simp only
        by_cases hp : LoadInstanceType ro ≤ LAST_PRIMITIVE_TYPE
        · simp [hp]
        · simp [hp]
  · intro r w2 hcall hprim
    simp only [Generate_NonPrimitiveToPrimitive, CallStub_GetProperty, hget, hnull, hundefined,
      if_false, CallJS, hcall]
    rcases hprim with ⟨n, rfl⟩ | ⟨o, rfl, hp⟩
    · exact ⟨rfl, rfl⟩
    · simp [hp]
  · cases hint <;> rfl

/-- Witness for C5: the capability of `exoticObject` returns its argument, so
the String-hint conversion returns the string "string". -/
theorem NonPrimitiveToPrimitive_invokes_capability_once_witness :
    (Generate_NonPrimitiveToPrimitive sampleWorld .kString exoticObject (Exec.start ())).1 =
        .Return (.Heap (.String "string")) ∧
      (Generate_NonPrimitiveToPrimitive sampleWorld .kString exoticObject (Exec.start ())).2.trace =
        [] ++ [Event.GetProperty exoticObject to_primitive_symbol,
          Event.Call sampleToPrimitive exoticObject [ToPrimitiveHintString .kString]] :=
  ⟨((NonPrimitiveToPrimitive_invokes_capability_once sampleWorld .kString exoticObject
      (Exec.start ()) sampleToPrimitive () (by decide) (by decide) (by decide)).2.1
      (.Heap (.String "string")) () (by decide)
      (Or.inr ⟨.String "string", rfl, by decide⟩)).1,
    (NonPrimitiveToPrimitive_invokes_capability_once sampleWorld .kString exoticObject
      (Exec.start ()) sampleToPrimitive () (by decide) (by decide) (by decide)).1⟩

/-! ## ToLength -/

/-- Tagging a double keeps the number. -/
theorem ChangeFloat64ToTagged_number (v : Float64) :
    (ChangeFloat64ToTagged v).number = some v := by
  cases v with
  | finite q =>
    simp only [ChangeFloat64ToTagged]
    split
    · rename_i h
      simp only [Value.number]
      rw [← h.1]
    · rfl
  | _ => rfl

/-- A non-positive double is not greater than zero, and conversely, NaN
apart. -/
theorem not_greaterThan_zero_iff (v : Float64) :
    Float64GreaterThan v (Float64Constant 0) = false ↔
      (v = .nan ∨ Float64GreaterThanOrEqual (Float64Constant 0) v = true) := by
  cases v with
  | nan => simp [Float64GreaterThan]
  | inf negative => cases negative <;> simp [Float64GreaterThan, Float64GreaterThanOrEqual, Float64Constant]
  | negZero => simp [Float64GreaterThan, Float64GreaterThanOrEqual, Float64Constant, Float64.toRat]
  | finite q => simp [Float64GreaterThan, Float64GreaterThanOrEqual, Float64Constant, Float64.toRat]

/-- ToLength of a small integer. -/
theorem ToLength_smi {σ : Type} (c : Collaborators σ) (fuel : Nat) (n : Int) (s : Exec σ) :
    ToLength c (fuel + 1) (.Smi n) s =
      some (.Return (if 0 ≤ n then .Smi n else .Smi 0), s) := by
  simp only [ToLength, ToLength_loop, TaggedIsPositiveSmi, SmiConstant]
  by_cases h : 0 ≤ n
  · simp [h]
  · simp [h]

/-- ToLength of a heap number: it returns without calling a collaborator, and
the number returned is the amended classification of the double. -/
theorem ToLength_heap_number {σ : Type} (c : Collaborators σ) (fuel : Nat) (v : Float64)
    (s : Exec σ) :
    ∃ r, ToLength c (fuel + 1) (.Heap (.HeapNumber v)) s = some (.Return r, s) ∧
      r.number = some (ToLength_float_amended v) := by
  have hmap : IsHeapNumberMap (LoadMap (.HeapNumber v)) = true :=
    (isHeapNumberMap_loadMap _).2 ⟨v, rfl⟩
  simp only [ToLength, ToLength_loop, TaggedIsPositiveSmi, hmap, if_true, LoadHeapNumberValue,
    ToLength_float_amended, Bool.false_eq_true, if_false]
  by_cases h0 : Float64GreaterThan v (Float64Constant 0) = true
  · have h0' : ¬ (v = .nan ∨ Float64GreaterThanOrEqual (Float64Constant 0) v = true) := by
      rw [← not_greaterThan_zero_iff, h0]
      decide
    simp only [h0, Bool.not_true, Bool.false_eq_true, if_false, h0']
    by_cases h1 : Float64GreaterThanOrEqual v (Float64Constant kMaxSafeInteger) = true
    · simp only [h1, if_true]
      exact ⟨_, rfl, ChangeFloat64ToTagged_number _⟩
    · simp only [h1, if_false]
      exact ⟨_, rfl, ChangeFloat64ToTagged_number _⟩
  · simp only [Bool.not_eq_true] at h0
    have h0' : v = .nan ∨ Float64GreaterThanOrEqual (Float64Constant 0) v = true :=
      (not_greaterThan_zero_iff v).1 h0
    simp only [h0, Bool.not_false, if_true, h0']
    exact ⟨_, rfl, by simp [SmiConstant, Value.number]⟩

/-- On a numeric input the rounds allowed beyond the first are not used. -/
theorem ToLength_numeric_returns {σ : Type} (c : Collaborators σ) (n : Value)
    (hn : n.number ≠ none) (s : Exec σ) :
    ∃ r, ∀ fuel, ToLength c (fuel + 1) n s = some (.Return r, s) := by
  cases n with
  | Smi k => exact ⟨_, fun fuel => ToLength_smi c fuel k s⟩
  | Heap o =>
    cases o with
    | HeapNumber v =>
      obtain ⟨r, hr, _⟩ := ToLength_heap_number c 0 v s
      refine ⟨r, fun fuel => ?_⟩
      rw [← hr]
      have hmap : IsHeapNumberMap (LoadMap (.HeapNumber v)) = true :=
        (isHeapNumberMap_loadMap _).2 ⟨v, rfl⟩
      simp only [ToLength, ToLength_loop, TaggedIsPositiveSmi, hmap, if_true]
    | String _ => exact absurd rfl hn
    | Symbol _ => exact absurd rfl hn
    | Oddball _ => exact absurd rfl hn
    | JSReceiver _ _ => exact absurd rfl hn

/-- On a non-numeric input one round calls the number conversion and goes
round again with its result. -/
theorem ToLength_round_non_numeric {σ : Type} (c : Collaborators σ) (fuel : Nat) (x : Value)
    (hx : x.number = none) (s : Exec σ) (n : Value) (w1 : σ)
    (hcall : c.NonNumberToNumber s.world x = (.normal n, w1)) :
    ToLength c (fuel + 1) x s =
      ToLength c fuel n { world := w1, trace := s.trace ++ [Event.NonNumberToNumber x] } := by
  cases x with
  | Smi k => simp [Value.number] at hx
  | Heap o =>
    have hmap : IsHeapNumberMap (LoadMap o) = false := by
      cases h : IsHeapNumberMap (LoadMap o)
      · rfl
      · obtain ⟨v, rfl⟩ := (isHeapNumberMap_loadMap o).1 h
        simp [Value.number] at hx
    simp only [ToLength, ToLength_loop, TaggedIsPositiveSmi, hmap, Bool.false_eq_true, if_false,
      CallStub_NonNumberToNumber, hcall]

/-- The amended classification on each kind of double: 0 for NaN, −Infinity
and −0, 2^53−1 for +Infinity, and for a finite value `q` the floor of `q`
clamped below by 0 and above by 2^53−1. -/
theorem ToLength_float_amended_values :
    ToLength_float_amended .nan = .finite 0 ∧
    ToLength_float_amended (.inf true) = .finite 0 ∧
    ToLength_float_amended .negZero = .finite 0 ∧
    ToLength_float_amended (.inf false) = .finite 9007199254740991 ∧
    ∀ q : ℚ, ToLength_float_amended (.finite q) =
      .finite (if q ≤ 0 then 0 else if 9007199254740991 ≤ q then 9007199254740991
        else ((⌊q⌋ : Int) : ℚ)) := by
  refine ⟨by decide, by decide, ?_, ?_, ?_⟩
  · simp [ToLength_float_amended, Float64GreaterThanOrEqual, Float64Constant, Float64.toRat]
  · simp [ToLength_float_amended, Float64GreaterThanOrEqual, Float64Constant, kMaxSafeInteger]
  · intro q
    by_cases h0 : q ≤ 0
    · simp [ToLength_float_amended, Float64GreaterThanOrEqual, Float64Constant, Float64.toRat, h0]
    · by_cases h1 : (9007199254740991 : ℚ) ≤ q
      · simp [ToLength_float_amended, Float64GreaterThanOrEqual, Float64Constant, Float64.toRat,
          kMaxSafeInteger, h0, h1]
      · simp [ToLength_float_amended, Float64GreaterThanOrEqual, Float64Constant, Float64.toRat,
          kMaxSafeInteger, Float64Floor, h0, h1]

/-- C6 (amended): ToLength of a numeric input returns, without calling a
collaborator: the input itself for a non-negative small integer; 0 for a
negative small integer; and for a floating value 0 if it is NaN or ≤ 0,
2^53−1 if it is ≥ 2^53−1, and its floor otherwise (for a finite value, in the
order of the rationals). ToLength(−5) = 0,
ToLength(2^53) = 2^53−1 and ToLength(3.7) = 3. -/
theorem ToLength_numeric_classification {σ : Type} (c : Collaborators σ) (fuel : Nat)
    (s : Exec σ) :
    (∀ n : Int, 0 ≤ n → ToLength c (fuel + 1) (.Smi n) s = some (.Return (.Smi n), s)) ∧
    (∀ n : Int, n < 0 → ToLength c (fuel + 1) (.Smi n) s = some (.Return (.Smi 0), s)) ∧
    (∀ v : Float64, ∃ r,
      ToLength c (fuel + 1) (.Heap (.HeapNumber v)) s = some (.Return r, s) ∧
        r.number = some (ToLength_float_amended v)) ∧
    (∀ q : ℚ, ∃ r,
      ToLength c (fuel + 1) (.Heap (.HeapNumber (.finite q))) s = some (.Return r, s) ∧
        r.number = some (.finite (if q ≤ 0 then 0 else if 9007199254740991 ≤ q then
          9007199254740991 else ((⌊q⌋ : Int) : ℚ)))) ∧
    ToLength c (fuel + 1) (.Smi (-5)) s = some (.Return (.Smi 0), s) ∧
    (∃ r, ToLength c (fuel + 1) (.Heap (.HeapNumber (.finite 9007199254740992))) s =
        some (.Return r, s) ∧ r.number = some (.finite 9007199254740991)) ∧
    ToLength c (fuel + 1) (.Heap (.HeapNumber (.finite (37 / 10)))) s =
      some (.Return (.Smi 3), s) := by
  refine ⟨?_, ?_, ?_, ?_, ?_, ?_, ?_⟩
  · intro n hn
    rw [ToLength_smi, if_pos hn]
  · intro n hn
    rw [ToLength_smi, if_neg (not_le.2 hn)]
  · intro v
    exact ToLength_heap_number c fuel v s
  · intro q
    obtain ⟨r, hr, hnum⟩ := ToLength_heap_number c fuel (.finite q) s
    exact ⟨r, hr, by rw [hnum, ToLength_float_amended_values.2.2.2.2 q]⟩
  · rw [ToLength_smi]
    rfl
  · obtain ⟨r, hr, hnum⟩ := ToLength_heap_number c fuel (.finite 9007199254740992) s
    refine ⟨r, hr, ?_⟩
    rw [hnum]
    simp [ToLength_float_amended, Float64GreaterThanOrEqual, Float64Constant, Float64.toRat,
      kMaxSafeInteger]
    norm_num
  · have hmap : IsHeapNumberMap (LoadMap (.HeapNumber (.finite (37 / 10)))) = true :=
      (isHeapNumberMap_loadMap _).2 ⟨_, rfl⟩
    have hfloor : ⌊(37 / 10 : ℚ)⌋ = 3 := by
      rw [Int.floor_eq_iff]
      norm_num
    simp only [ToLength, ToLength_loop, TaggedIsPositiveSmi, hmap, if_true, LoadHeapNumberValue,
      Float64GreaterThan, Float64GreaterThanOrEqual, Float64Constant, Float64.toRat,
      kMaxSafeInteger, Float64Floor, hfloor, ChangeFloat64ToTagged, Bool.false_eq_true, if_false]
    norm_num

/-- Witness for C6 (amended): the small integer 7 is returned as it is. -/
theorem ToLength_numeric_classification_witness :
    ToLength sampleWorld (0 + 1) (.Smi 7) (Exec.start ()) =
      some (.Return (.Smi 7), Exec.start ()) :=
  (ToLength_numeric_classification sampleWorld 0 (Exec.start ())).1 7 (by decide)

/-- C6 as stated fails at NaN: NaN is not ≤ 0 and not ≥ 2^53−1, so the stated
rule gives floor(NaN) = NaN, but ToLength returns the small integer 0. -/
theorem ToLength_nan_not_as_stated :
    (ToLength sampleWorld 1 (.Heap (.HeapNumber .nan)) (Exec.start ())).map Prod.fst =
        some (.Return (.Smi 0)) ∧
      ToLength_float_stated .nan = .nan ∧
      (Value.Smi 0).number ≠ some (ToLength_float_stated .nan) := by
  refine ⟨by decide, by decide, ?_⟩
  rw [show ToLength_float_stated .nan = .nan by decide]
  simp [Value.number]

/-- C7: for a non-numeric input `x` (neither a small integer nor a heap
number) for which the number conversion returns a numeric value `n`,
ToLength(x) is ToLength(n), run after that one conversion call: it returns the
classification of `n`. With a number conversion that maps "10" to 10,
ToLength("10") = 10. -/
theorem ToLength_non_numeric {σ : Type} (c : Collaborators σ) (fuel fuel' : Nat) (x : Value)
    (s : Exec σ) (n : Value) (w1 : σ)
    (hx : x.number = none)
    (hcall : c.NonNumberToNumber s.world x = (.normal n, w1))
    (hn : n.number ≠ none) :
    ToLength c (fuel + 2) x s =
        ToLength c (fuel' + 1) n
          { world := w1, trace := s.trace ++ [Event.NonNumberToNumber x] } ∧
      (∃ r, ToLength c (fuel + 2) x s =
        some (.Return r, { world := w1, trace := s.trace ++ [Event.NonNumberToNumber x] })) ∧
      (ToLength sampleWorld 2 (.Heap (.String "10")) (Exec.start ())).map Prod.fst =
        some (.Return (.Smi 10)) := by
  obtain ⟨r, hr⟩ := ToLength_numeric_returns c n hn
    { world := w1, trace := s.trace ++ [Event.NonNumberToNumber x] }
  have hround := ToLength_round_non_numeric c (fuel + 1) x hx s n w1 hcall
  refine ⟨?_, ⟨r, ?_⟩, by decide⟩
  · rw [hround, hr fuel, hr fuel']
  · rw [hround, hr fuel]

/-- Witness for C7: the string "10" is not numeric, its number conversion in
the sample world is 10, and ToLength("10") returns 10 after that one call. -/
theorem ToLength_non_numeric_witness :
    ToLength sampleWorld (0 + 2) (.Heap (.String "10")) (Exec.start ()) =
      ToLength sampleWorld (0 + 1) (.Smi 10)
        { world := (), trace := [] ++ [Event.NonNumberToNumber (.Heap (.String "10"))] } :=
  (ToLength_non_numeric sampleWorld 0 0 (.Heap (.String "10")) (Exec.start ()) (.Smi 10) ()
    (by decide) (by decide) (by decide)).1

/-! ## ToObject -/

/-- A store into the object allocated last. -/
theorem Heap.store_last (heap : Heap) (o : JSValue) (f : JSValue → JSValue) :
    Heap.store (heap ++ [o]) heap.length f = heap ++ [f o] := by
  simp [Heap.store]

/-- The label `if_wrapjsvalue` with the index variable bound: one object is
allocated at the end of the heap and all four fields are stored. -/
theorem if_wrapjsvalue_bound (context : Context) (object : Value) (index : Nat) (heap : Heap) :
    if_wrapjsvalue context object (some index) heap =
      (.Return (.Heap (.JSReceiver heap.length
          (context.native_context index).prototype_or_initial_map)),
        heap ++ [wrapperObject (context.native_context index).prototype_or_initial_map
          object]) := by
  simp only [if_wrapjsvalue, Allocate, StoreMapNoWriteBarrier, StoreObjectFieldRoot_properties,
    StoreObjectFieldRoot_elements, StoreObjectField_value, Heap.store_last, LoadNativeContext,
    LoadFixedArrayElement, wrapperObject]

/-- ToObject by the tag of its argument. -/
theorem ToObject_by_tag (context : Context) (object : Value) (heap : Heap) :
    ToObject context object heap =
      match object.tag.constructorIndex with
      | some index => if_wrapjsvalue context object (some index) heap
      | none =>
        if object.tag = .Receiver then (.Return object, heap)
        else (.TailCallRuntime .kThrowUndefinedOrNullToObject, heap) := by
  cases object with
  | Smi n => rfl
  | Heap o =>
    cases o with
    | HeapNumber v =>
      simp [ToObject, IsHeapNumberMap, LoadMap, if_number, Value.tag, Tag.constructorIndex]
    | String v =>
      simp [ToObject, IsHeapNumberMap, LoadMap, heap_number_map, Value.tag, Tag.constructorIndex,
        LoadMapInstanceType, IsJSReceiverInstanceType, LoadMapConstructorFunctionIndex,
        ONE_BYTE_STRING_TYPE, HEAP_NUMBER_TYPE, FIRST_JS_RECEIVER_TYPE, JS_PROXY_TYPE,
        STRING_FUNCTION_INDEX, kNoConstructorFunctionIndex]
    | Symbol v =>
      simp [ToObject, IsHeapNumberMap, LoadMap, heap_number_map, Value.tag, Tag.constructorIndex,
        LoadMapInstanceType, IsJSReceiverInstanceType, LoadMapConstructorFunctionIndex,
        SYMBOL_TYPE, HEAP_NUMBER_TYPE, FIRST_JS_RECEIVER_TYPE, JS_PROXY_TYPE,
        SYMBOL_FUNCTION_INDEX, kNoConstructorFunctionIndex]
    | Oddball k =>
      cases k <;>
        simp [ToObject, IsHeapNumberMap, LoadMap, heap_number_map, Value.tag,
          Tag.constructorIndex, LoadMapInstanceType, IsJSReceiverInstanceType,
          LoadMapConstructorFunctionIndex, ODDBALL_TYPE, HEAP_NUMBER_TYPE,
          FIRST_JS_RECEIVER_TYPE, JS_PROXY_TYPE, BOOLEAN_FUNCTION_INDEX,
          kNoConstructorFunctionIndex]
    | JSReceiver a m =>
      obtain ⟨i, t, cl⟩ := m
      cases t <;>
        simp [ToObject, IsHeapNumberMap, LoadMap, heap_number_map, Value.tag,
          Tag.constructorIndex, LoadMapInstanceType, IsJSReceiverInstanceType,
          JSReceiverType.toInstanceType, HEAP_NUMBER_TYPE, FIRST_JS_RECEIVER_TYPE, JS_PROXY_TYPE,
          JS_VALUE_TYPE, JS_OBJECT_TYPE, JS_FUNCTION_TYPE]

/-- C8: ToObject(null) and ToObject(undefined) end in the tail call to the
runtime throw ThrowUndefinedOrNullToObject, leaving the heap as it was; over
the value tags ToObject fails exactly for Null and Undefined, and returns a
value for every SmallInteger, FloatNumber, String, Boolean, Symbol and
Receiver. -/
theorem ToObject_fails_iff_null_or_undefined (context : Context) (heap : Heap) :
    ToObject context NullConstant heap =
        (.TailCallRuntime .kThrowUndefinedOrNullToObject, heap) ∧
    ToObject context UndefinedConstant heap =
        (.TailCallRuntime .kThrowUndefinedOrNullToObject, heap) ∧
    (∀ object : Value,
      (ToObject context object heap).1 = .TailCallRuntime .kThrowUndefinedOrNullToObject ↔
        (object.tag = .Null ∨ object.tag = .Undefined)) ∧
    (∀ object : Value,
      (∃ v, (ToObject context object heap).1 = .Return v) ↔
        ¬ (object.tag = .Null ∨ object.tag = .Undefined)) := by
  refine ⟨?_, ?_, ?_, ?_⟩
  · rw [ToObject_by_tag]
    rfl
  · rw [ToObject_by_tag]
    rfl
  · intro object
    rw [ToObject_by_tag]
    cases object with
    | Smi n => simp [Value.tag, Tag.constructorIndex, if_wrapjsvalue_bound]
    | Heap o =>
      cases o with
      | Oddball k => cases k <;> simp [Value.tag, Tag.constructorIndex, if_wrapjsvalue_bound]
      | _ => simp [Value.tag, Tag.constructorIndex, if_wrapjsvalue_bound]
  · intro object
    rw [ToObject_by_tag]
    cases object with
    | Smi n => simp [Value.tag, Tag.constructorIndex, if_wrapjsvalue_bound]
    | Heap o =>
      cases o with
      | Oddball k => cases k <;> simp [Value.tag, Tag.constructorIndex, if_wrapjsvalue_bound]
      | _ => simp [Value.tag, Tag.constructorIndex, if_wrapjsvalue_bound]

/-- What ToObject returns is a Receiver. -/
theorem ToObject_returns_receiver (context : Context) (x : Value) (heap : Heap) (w : Value)
    (heap' : Heap) (h : ToObject context x heap = (.Return w, heap')) : w.tag = .Receiver := by
  rw [ToObject_by_tag] at h
  cases hidx : x.tag.constructorIndex with
  | some index =>
    rw [hidx] at h
    simp only [if_wrapjsvalue_bound, Prod.mk.injEq, Outcome.Return.injEq] at h
    rw [← h.1]
    rfl
  | none =>
    rw [hidx] at h
    simp only at h
    by_cases hr : x.tag = .Receiver
    · simp only [hr, if_true, Prod.mk.injEq, Outcome.Return.injEq] at h
      rw [← h.1]
      exact hr
    · simp [hr] at h

/-- C9: ToObject of a Receiver returns that Receiver and leaves the heap as it
was (nothing is allocated, nothing is stored); hence ToObject applied to a
result of ToObject returns it again, in the heap the first call left. -/
theorem ToObject_receiver_identity (context : Context) (heap : Heap) :
    (∀ r : Value, r.tag = .Receiver → ToObject context r heap = (.Return r, heap)) ∧
    (∀ (x w : Value) (heap' : Heap), ToObject context x heap = (.Return w, heap') →
      ToObject context w heap' = (.Return w, heap')) := by
  have hid : ∀ (r : Value) (hp : Heap), r.tag = .Receiver →
      ToObject context r hp = (.Return r, hp) := by
    intro r hp hr
    rw [ToObject_by_tag, hr]
    rfl
  refine ⟨fun r hr => hid r heap hr, ?_⟩
  intro x w heap' h
  exact hid w heap' (ToObject_returns_receiver context x heap w heap' h)

/-- Witness for C9: ToObject of a plain object is that object, and wrapping 5
twice gives the wrapper made the first time. -/
theorem ToObject_receiver_identity_witness :
    ToObject sampleContext sampleObject [] = (.Return sampleObject, []) ∧
      ToObject sampleContext
          (.Heap (.JSReceiver 0 (sampleContext.native_context NUMBER_FUNCTION_INDEX).prototype_or_initial_map))
          [wrapperObject (sampleContext.native_context NUMBER_FUNCTION_INDEX).prototype_or_initial_map
            (.Smi 5)] =
        (.Return (.Heap (.JSReceiver 0
            (sampleContext.native_context NUMBER_FUNCTION_INDEX).prototype_or_initial_map)),
          [wrapperObject (sampleContext.native_context NUMBER_FUNCTION_INDEX).prototype_or_initial_map
            (.Smi 5)]) :=
  ⟨(ToObject_receiver_identity sampleContext []).1 sampleObject (by decide),
    (ToObject_receiver_identity sampleContext []).2 (.Smi 5) _ _ (by decide)⟩

/-- C10: for a SmallInteger, FloatNumber, String, Boolean or Symbol `v`,
ToObject allocates one new object, at an address the heap did not hold, stores
into it a map, empty properties, empty elements and the value `v`, and returns
the pointer to it. ToObject(5) returns a wrapper whose value is 5. -/
theorem ToObject_wraps_primitive (context : Context) (v : Value) (heap : Heap)
    (hv : v.tag = .SmallInteger ∨ v.tag = .FloatNumber ∨ v.tag = .String ∨ v.tag = .Boolean ∨
      v.tag = .Symbol) :
    (∃ map : JSReceiverMap,
      ToObject context v heap =
        (.Return (.Heap (.JSReceiver heap.length map)),
          heap ++ [{ map := some map, properties := some .kEmptyFixedArrayRootIndex,
                     elements := some .kEmptyFixedArrayRootIndex, value := some v }])) ∧
      heap[heap.length]? = none ∧
      (∃ map : JSReceiverMap,
        ToObject context (.Smi 5) heap =
          (.Return (.Heap (.JSReceiver heap.length map)),
            heap ++ [{ map := some map, properties := some .kEmptyFixedArrayRootIndex,
                       elements := some .kEmptyFixedArrayRootIndex,
                       value := some (.Smi 5) }])) := by
  have hwrap : ∀ u : Value, (∃ index, u.tag.constructorIndex = some index) →
      ∃ map : JSReceiverMap,
        ToObject context u heap =
          (.Return (.Heap (.JSReceiver heap.length map)),
            heap ++ [{ map := some map, properties := some .kEmptyFixedArrayRootIndex,
                       elements := some .kEmptyFixedArrayRootIndex, value := some u }]) := by
    rintro u ⟨index, hidx⟩
    refine ⟨(context.native_context index).prototype_or_initial_map, ?_⟩
    rw [ToObject_by_tag, hidx]
    simp only [if_wrapjsvalue_bound, wrapperObject]
  refine ⟨hwrap v ?_, by simp, hwrap (.Smi 5) ⟨_, rfl⟩⟩
  rcases hv with h | h | h | h | h <;> rw [h] <;> exact ⟨_, rfl⟩

/-- Witness for C10: ToObject(5) in an empty heap makes the wrapper of 5 at
address 0. -/
theorem ToObject_wraps_primitive_witness :
    ∃ map : JSReceiverMap,
      ToObject sampleContext (.Smi 5) [] =
        (.Return (.Heap (.JSReceiver ([] : Heap).length map)),
          [] ++ [{ map := some map, properties := some .kEmptyFixedArrayRootIndex,
                   elements := some .kEmptyFixedArrayRootIndex, value := some (.Smi 5) }]) :=
  (ToObject_wraps_primitive sampleContext (.Smi 5) [] (Or.inl rfl)).1

/-- C11: for a primitive `v` other than null and undefined, the map of the
wrapper ToObject returns, and the map stored in the new object, is the initial
map of the constructor found in the native context of the context passed in,
at the index for the kind of `v`: `NUMBER_FUNCTION_INDEX` for a SmallInteger
and for a FloatNumber, and the constructor index recorded in the map of `v`
for a String, Boolean or Symbol. Nothing else of the context is read: a context
with the same constructor at that index gives the same result. -/
theorem ToObject_wrapper_map (context : Context) (v : Value) (heap : Heap)
    (hprimitive : v.isPrimitive = true) (hnull : v ≠ NullConstant)
    (hundefined : v ≠ UndefinedConstant) :
    ∃ index, v.tag.constructorIndex = some index ∧
      (ToObject context v heap).1 =
        .Return (.Heap (.JSReceiver heap.length
          ((LoadNativeContext context) index).prototype_or_initial_map)) ∧
      ((ToObject context v heap).2[heap.length]?).map (fun o => o.map) =
        some (some ((LoadNativeContext context) index).prototype_or_initial_map) ∧
      ((v.tag = .SmallInteger ∨ v.tag = .FloatNumber) → index = NUMBER_FUNCTION_INDEX) ∧
      (∀ o, v = .Heap o → v.tag ≠ .FloatNumber →
        index = LoadMapConstructorFunctionIndex (LoadMap o)) ∧
      (∀ context' : Context, context'.native_context index = context.native_context index →
        ToObject context' v heap = ToObject context v heap) := by
  have hidx : ∃ index, v.tag.constructorIndex = some index ∧
      ((v.tag = .SmallInteger ∨ v.tag = .FloatNumber) → index = NUMBER_FUNCTION_INDEX) ∧
      (∀ o, v = .Heap o → v.tag ≠ .FloatNumber →
        index = LoadMapConstructorFunctionIndex (LoadMap o)) := by
    cases v with
    | Smi n => exact ⟨NUMBER_FUNCTION_INDEX, rfl, fun _ => rfl, by simp⟩
    | Heap o =>
      cases o with
      | HeapNumber x =>
        exact ⟨NUMBER_FUNCTION_INDEX, rfl, fun _ => rfl, by simp [Value.tag]⟩
      | String x =>
        refine ⟨STRING_FUNCTION_INDEX, rfl, by simp [Value.tag], ?_⟩
        intro o ho _
        simp only [Value.Heap.injEq] at ho
        subst ho
        rfl
      | Symbol x =>
        refine ⟨SYMBOL_FUNCTION_INDEX, rfl, by simp [Value.tag], ?_⟩
        intro o ho _
        simp only [Value.Heap.injEq] at ho
        subst ho
        rfl
      | Oddball k =>
        cases k with
        | undefined => exact absurd rfl hundefined
        | null => exact absurd rfl hnull
        | true_value =>
          refine ⟨BOOLEAN_FUNCTION_INDEX, rfl, by simp [Value.tag], ?_⟩
          intro o ho _
          simp only [Value.Heap.injEq] at ho
          subst ho
          rfl
        | false_value =>
          refine ⟨BOOLEAN_FUNCTION_INDEX, rfl, by simp [Value.tag], ?_⟩
          intro o ho _
          simp only [Value.Heap.injEq] at ho
          subst ho
          rfl
      | JSReceiver a m => simp [Value.isPrimitive, Value.isReceiver] at hprimitive
  obtain ⟨index, hindex, hnumber, hrecorded⟩ := hidx
  refine ⟨index, hindex, ?_, ?_, hnumber, hrecorded, ?_⟩
  · rw [ToObject_by_tag, hindex]
    simp only [if_wrapjsvalue_bound, LoadNativeContext]
  · rw [ToObject_by_tag, hindex]
    simp [if_wrapjsvalue_bound, LoadNativeContext, wrapperObject]
  · intro context' hsame
    rw [ToObject_by_tag, ToObject_by_tag, hindex]
    simp only [if_wrapjsvalue_bound, hsame]

/-- Witness for C11: the wrapper of 5 has the initial map of the constructor
at `NUMBER_FUNCTION_INDEX`. -/
theorem ToObject_wrapper_map_witness :
    ∃ index, (Value.Smi 5).tag.constructorIndex = some index ∧
      (ToObject sampleContext (.Smi 5) []).1 =
        .Return (.Heap (.JSReceiver ([] : Heap).length
          ((LoadNativeContext sampleContext) index).prototype_or_initial_map)) ∧
      ((ToObject sampleContext (.Smi 5) []).2[([] : Heap).length]?).map (fun o => o.map) =
        some (some ((LoadNativeContext sampleContext) index).prototype_or_initial_map) ∧
      (((Value.Smi 5).tag = .SmallInteger ∨ (Value.Smi 5).tag = .FloatNumber) →
        index = NUMBER_FUNCTION_INDEX) ∧
      (∀ o, Value.Smi 5 = .Heap o → (Value.Smi 5).tag ≠ .FloatNumber →
        index = LoadMapConstructorFunctionIndex (LoadMap o)) ∧
      (∀ context' : Context,
        context'.native_context index = sampleContext.native_context index →
          ToObject context' (.Smi 5) [] = ToObject sampleContext (.Smi 5) []) :=
  ToObject_wrapper_map sampleContext (.Smi 5) [] (by decide) (by decide) (by decide)

/-! ## ToString: the claims -/

/-- C12: ToString of a String returns that String and leaves the state as it
was: neither the number formatter nor the runtime, and so no user-level code,
is called. -/
theorem ToString_string {σ : Type} (f : ToStringCollaborators σ) (input : Value)
    (s : ToStringExec σ) (hstring : input.tag = .String) :
    ToString f input s = (.Return input, s) := by
  cases input with
  | Smi n => simp [Value.tag] at hstring
  | Heap o =>
    cases o with
    | String chars =>
      simp [ToString, LoadMap, LoadMapInstanceType, IsStringInstanceType, ONE_BYTE_STRING_TYPE,
        kIsNotStringMask]
    | Oddball k => cases k <;> simp [Value.tag] at hstring
    | _ => simp [Value.tag] at hstring

/-- Witness for C12: ToString("abc") is "abc", with nothing called. -/
theorem ToString_string_witness :
    ToString sampleFormatter (.Heap (.String "abc")) (ToStringExec.start ()) =
      (.Return (.Heap (.String "abc")), ToStringExec.start ()) :=
  ToString_string sampleFormatter (.Heap (.String "abc")) (ToStringExec.start ()) (by decide)

/-- C13: ToString(null) is the text "null" and ToString(undefined) the text
"undefined", read from the value's own `to_string` field, with the state left
as it was (the runtime is not called); ToString of a SmallInteger or a
FloatNumber is the text the number formatter gives for it, after that one
call. -/
theorem ToString_oddball_and_number {σ : Type} (f : ToStringCollaborators σ)
    (s : ToStringExec σ) :
    ToString f NullConstant s = (.Return (.Heap (.String "null")), s) ∧
    ToString f UndefinedConstant s = (.Return (.Heap (.String "undefined")), s) ∧
    (∀ kind : Oddball, ToString f (.Heap (.Oddball kind)) s = (.Return kind.to_string, s)) ∧
    (∀ n : Value, (n.tag = .SmallInteger ∨ n.tag = .FloatNumber) →
      ToString f n s =
        (.Return (f.NumberToString s.world n).1,
          { world := (f.NumberToString s.world n).2,
            trace := s.trace ++ [ToStringEvent.NumberToString n] })) := by
  have hodd : ∀ kind : Oddball,
      ToString f (.Heap (.Oddball kind)) s = (.Return kind.to_string, s) := by
    intro kind
    cases kind <;>
      simp [ToString, LoadMap, LoadMapInstanceType, IsStringInstanceType, IsHeapNumberMap,
        heap_number_map, ODDBALL_TYPE, HEAP_NUMBER_TYPE, kIsNotStringMask,
        LoadObjectField_to_string]
  refine ⟨hodd .null, hodd .undefined, hodd, ?_⟩
  intro n hn
  cases n with
  | Smi k => rfl
  | Heap o =>
    cases o with
    | HeapNumber v =>
      simp [ToString, LoadMap, LoadMapInstanceType, IsStringInstanceType, IsHeapNumberMap,
        heap_number_map, HEAP_NUMBER_TYPE, kIsNotStringMask, is_number, NumberToString]
    | Oddball k => cases k <;> simp [Value.tag] at hn
    | _ => simp [Value.tag] at hn

/-- Witness for C13: ToString(42) is the formatter's "42". -/
theorem ToString_oddball_and_number_witness :
    ToString sampleFormatter (.Smi 42) (ToStringExec.start ()) =
      (.Return (sampleFormatter.NumberToString () (.Smi 42)).1,
        { world := (sampleFormatter.NumberToString () (.Smi 42)).2,
          trace := [] ++ [ToStringEvent.NumberToString (.Smi 42)] }) :=
  (ToString_oddball_and_number sampleFormatter (ToStringExec.start ())).2.2.2 (.Smi 42)
    (Or.inl rfl)

/-- C14: ToString of a Symbol is the runtime call `Runtime::kToString` on it,
which throws the TypeError CannotConvertSymbolToString; no value is
returned. -/
theorem ToString_symbol {σ : Type} (f : ToStringCollaborators σ) (input : Value)
    (s : ToStringExec σ) (hsymbol : input.tag = .Symbol) :
    ToString f input s = CallRuntime_ToString f s input ∧
      ToString f input s =
        (.ThrowTypeError .kSymbolToString,
          { world := s.world, trace := s.trace ++ [ToStringEvent.Runtime_ToString input] }) ∧
      ∀ v, (ToString f input s).1 ≠ .Return v := by
  cases input with
  | Smi n => simp [Value.tag] at hsymbol
  | Heap o =>
    cases o with
    | Symbol id =>
      have hrun : ToString f (.Heap (.Symbol id)) s =
          CallRuntime_ToString f s (.Heap (.Symbol id)) := by
        simp [ToString, LoadMap, LoadMapInstanceType, IsStringInstanceType, IsHeapNumberMap,
          heap_number_map, SYMBOL_TYPE, ODDBALL_TYPE, HEAP_NUMBER_TYPE, kIsNotStringMask]
      refine ⟨hrun, ?_, ?_⟩
      · rw [hrun]
        rfl
      · intro v
        rw [hrun]
        simp [CallRuntime_ToString, Runtime_ToString]
    | Oddball k => cases k <;> simp [Value.tag] at hsymbol
    | _ => simp [Value.tag] at hsymbol

/-- Witness for C14: ToString of the to-primitive symbol throws. -/
theorem ToString_symbol_witness :
    (ToString sampleFormatter to_primitive_symbol (ToStringExec.start ())).1 =
      .ThrowTypeError .kSymbolToString :=
  congrArg Prod.fst
    (ToString_symbol sampleFormatter to_primitive_symbol (ToStringExec.start ())
      (by decide)).2.1

/-! ## OrdinaryToPrimitive: effects and variables -/

theorem method_names_eq (hint : OrdinaryToPrimitiveHint) :
    method_names hint = [firstName hint, secondName hint] := by
  cases hint <;> rfl

/-- An attempt whose lookup throws. -/
theorem attempt_lookup_throws {σ : Type} (c : Collaborators σ) (input name : Value) (s : Exec σ)
    (e : Value) (w1 : σ) (hget : c.GetProperty s.world input name = (.throw e, w1)) :
    attempt c input name s =
      .threw e { world := w1, trace := s.trace ++ [Event.GetProperty input name] } := by
  rw [attempt_eq, hget]

/-- An attempt whose invocation throws. -/
theorem attempt_call_throws {σ : Type} (c : Collaborators σ) (input name : Value) (s : Exec σ)
    (m : Value) (w1 : σ) (e : Value) (w2 : σ)
    (hget : c.GetProperty s.world input name = (.normal m, w1))
    (hcallable : m.isCallable = true)
    (hcall : c.Call w1 m input [] = (.throw e, w2)) :
    attempt c input name s =
      .threw e { world := w2,
                 trace := s.trace ++ [Event.GetProperty input name, Event.Call m input []] } := by
  rw [attempt_eq, hget]
  simp only [hcallable, if_true, hcall]

/-- An attempt that yields a primitive. -/
theorem attempt_yields {σ : Type} (c : Collaborators σ) (input name : Value) (s : Exec σ)
    (m : Value) (w1 : σ) (r : Value) (w2 : σ)
    (hget : c.GetProperty s.world input name = (.normal m, w1))
    (hcallable : m.isCallable = true)
    (hcall : c.Call w1 m input [] = (.normal r, w2))
    (hprimitive : r.isPrimitive = true) :
    attempt c input name s =
      .primitive r { world := w2,
                     trace := s.trace ++ [Event.GetProperty input name, Event.Call m input []] } := by
  rw [attempt_eq, hget]
  simp only [hcallable, if_true, hcall, hprimitive]

/-- An attempt that yields a primitive ends with the invocation that returned
it. -/
theorem attempt_primitive_last_call {σ : Type} (c : Collaborators σ) (input name : Value)
    (s : Exec σ) (r : Value) (s2 : Exec σ) (h : attempt c input name s = .primitive r s2) :
    ∃ pre m w, s2.trace = pre ++ [Event.Call m input []] ∧
      c.Call w m input [] = (.normal r, s2.world) := by
  rw [attempt_eq] at h
  rcases hg : c.GetProperty s.world input name with ⟨comp, w1⟩
  rw [hg] at h
  cases comp with
  | throw e => simp at h
  | normal m =>
    simp only at h
    by_cases hc : m.isCallable = true
    · simp only [hc, if_true] at h
      rcases hj : c.Call w1 m input [] with ⟨comp2, w2⟩
      rw [hj] at h
      cases comp2 with
      | throw e => simp at h
      | normal x =>
        simp only at h
        by_cases hp : x.isPrimitive = true
        · simp only [hp, if_true, Attempt.primitive.injEq] at h
          obtain ⟨rfl, rfl⟩ := h
          exact ⟨s.trace ++ [Event.GetProperty input name], m, w1, by simp, hj⟩
        · simp [hp] at h
    · simp [hc] at h

/-- C15: when the property under the first method name of the hint is callable
and its invocation returns a primitive `r`, OrdinaryToPrimitive returns `r`
having made exactly one lookup and one invocation: the second name is neither
looked up nor invoked. And whatever the input, every value OrdinaryToPrimitive
invokes is callable: a property that is not callable is never invoked. -/
theorem OrdinaryToPrimitive_returns_at_first {σ : Type} (c : Collaborators σ)
    (hint : OrdinaryToPrimitiveHint) (input : Value) (s : Exec σ) (m : Value) (w1 : σ)
    (r : Value) (w2 : σ)
    (hget : c.GetProperty s.world input (firstName hint) = (.normal m, w1))
    (hcallable : m.isCallable = true)
    (hcall : c.Call w1 m input [] = (.normal r, w2))
    (hprimitive : r.isPrimitive = true) :
    Generate_OrdinaryToPrimitive c hint input s =
        (.Return r,
          { world := w2,
            trace := s.trace ++ [Event.GetProperty input (firstName hint),
              Event.Call m input []] }) ∧
      Event.GetProperty input (secondName hint) ∉
        [Event.GetProperty input (firstName hint), Event.Call m input []] ∧
      (∀ (hint' : OrdinaryToPrimitiveHint) (input' : Value) (s' : Exec σ),
        ∃ new, (Generate_OrdinaryToPrimitive c hint' input' s').2.trace = s'.trace ++ new ∧
          ∀ g recv args, Event.Call g recv args ∈ new → g.isCallable = true) := by
  refine ⟨?_, ?_, ?_⟩
  · rw [Generate_OrdinaryToPrimitive, method_names_eq, loop_two,
      attempt_yields c input (firstName hint) s m w1 r w2 hget hcallable hcall hprimitive]
  · cases hint <;> simp [firstName, secondName, valueOf_string, toString_string]
  · intro hint' input' s'
    exact loop_calls_callable c input' (method_names hint') none s'

/-- Witness for C15: under the Number hint the sample object's valueOf returns
10 at once; toString is not looked up. -/
theorem OrdinaryToPrimitive_returns_at_first_witness :
    Generate_OrdinaryToPrimitive sampleWorld .kNumber sampleObject (Exec.start ()) =
      (.Return (.Smi 10),
        { world := (),
          trace := [] ++ [Event.GetProperty sampleObject (firstName .kNumber),
            Event.Call sampleValueOf sampleObject []] }) :=
  (OrdinaryToPrimitive_returns_at_first sampleWorld .kNumber sampleObject (Exec.start ())
    sampleValueOf () (.Smi 10) () (by decide) (by decide) (by decide) (by decide)).1

/-- C16: a value `e` thrown by a lookup or an invocation made by
OrdinaryToPrimitive is what OrdinaryToPrimitive fails with, and the throwing
call is the last one made: on the first name (the second name is then not
tried), or on the second name after the first was passed over. -/
theorem OrdinaryToPrimitive_propagates_throw {σ : Type} (c : Collaborators σ)
    (hint : OrdinaryToPrimitiveHint) (input : Value) (s : Exec σ) (e : Value) :
    (∀ w1, c.GetProperty s.world input (firstName hint) = (.throw e, w1) →
      Generate_OrdinaryToPrimitive c hint input s =
        (.Exception e,
          { world := w1, trace := s.trace ++ [Event.GetProperty input (firstName hint)] })) ∧
    (∀ m w1 w2, c.GetProperty s.world input (firstName hint) = (.normal m, w1) →
      m.isCallable = true → c.Call w1 m input [] = (.throw e, w2) →
      Generate_OrdinaryToPrimitive c hint input s =
        (.Exception e,
          { world := w2,
            trace := s.trace ++ [Event.GetProperty input (firstName hint),
              Event.Call m input []] })) ∧
    (∀ w1 w2, PassedOver c input (firstName hint) s.world w1 →
      c.GetProperty w1 input (secondName hint) = (.throw e, w2) →
      (Generate_OrdinaryToPrimitive c hint input s).1 = .Exception e ∧
        (Generate_OrdinaryToPrimitive c hint input s).2.world = w2 ∧
        ∃ pre, (Generate_OrdinaryToPrimitive c hint input s).2.trace =
          pre ++ [Event.GetProperty input (secondName hint)]) ∧
    (∀ w1 m w2 w3, PassedOver c input (firstName hint) s.world w1 →
      c.GetProperty w1 input (secondName hint) = (.normal m, w2) →
      m.isCallable = true → c.Call w2 m input [] = (.throw e, w3) →
      (Generate_OrdinaryToPrimitive c hint input s).1 = .Exception e ∧
        (Generate_OrdinaryToPrimitive c hint input s).2.world = w3 ∧
        ∃ pre, (Generate_OrdinaryToPrimitive c hint input s).2.trace =
          pre ++ [Event.GetProperty input (secondName hint), Event.Call m input []]) := by
  refine ⟨?_, ?_, ?_, ?_⟩
  · intro w1 hget
    rw [Generate_OrdinaryToPrimitive, method_names_eq, loop_two,
      attempt_lookup_throws c input (firstName hint) s e w1 hget]
  · intro m w1 w2 hget hcallable hcall
    rw [Generate_OrdinaryToPrimitive, method_names_eq, loop_two,
      attempt_call_throws c input (firstName hint) s m w1 e w2 hget hcallable hcall]
  · intro w1 w2 hpass hget
    obtain ⟨s1, h1, hw⟩ := (attempt_next_iff c input (firstName hint) s w1).2 hpass
    rw [← hw] at hget
    rw [Generate_OrdinaryToPrimitive, method_names_eq, loop_two, h1]
    simp only
    rw [attempt_lookup_throws c input (secondName hint) s1 e w2 hget]
    exact ⟨rfl, rfl, s1.trace, rfl⟩
  · intro w1 m w2 w3 hpass hget hcallable hcall
    obtain ⟨s1, h1, hw⟩ := (attempt_next_iff c input (firstName hint) s w1).2 hpass
    rw [← hw] at hget
    rw [Generate_OrdinaryToPrimitive, method_names_eq, loop_two, h1]
    simp only
    rw [attempt_call_throws c input (secondName hint) s1 m w2 e w3 hget hcallable hcall]
    exact ⟨rfl, rfl, s1.trace, rfl⟩

/-- Witness for C16: the valueOf method of `throwingObject` throws 99, the
Number-hint conversion fails with 99, and toString is not looked up. -/
theorem OrdinaryToPrimitive_propagates_throw_witness :
    Generate_OrdinaryToPrimitive throwingWorld .kNumber throwingObject (Exec.start ()) =
      (.Exception (.Smi 99),
        { world := (),
          trace := [] ++ [Event.GetProperty throwingObject (firstName .kNumber),
            Event.Call sampleThrower throwingObject []] }) :=
  (OrdinaryToPrimitive_propagates_throw throwingWorld .kNumber throwingObject (Exec.start ())
    (.Smi 99)).2.1 sampleThrower () () (by decide) (by decide) (by decide)

/-- The loop never reads `var_result` unbound, whatever it holds on entry. -/
theorem loop_never_unbound {σ : Type} (c : Collaborators σ) (input : Value)
    (names : List Value) (v : Option Value) (s : Exec σ) :
    (OrdinaryToPrimitive_loop c input names v s).1 ≠ .Unbound := by
  induction names generalizing v s with
  | nil => simp [OrdinaryToPrimitive_loop]
  | cons name rest ih =>
    rw [loop_cons]
    cases attempt c input name s with
    | threw e s1 => simp
    | primitive r s1 => simp
    | next s1 => exact ih none s1

/-- A value returned by the loop is the result of the invocation made last. -/
theorem loop_return_last_call {σ : Type} (c : Collaborators σ) (input : Value)
    (names : List Value) (v : Option Value) (s : Exec σ) (r : Value)
    (h : (OrdinaryToPrimitive_loop c input names v s).1 = .Return r) :
    ∃ pre m w, (OrdinaryToPrimitive_loop c input names v s).2.trace =
        pre ++ [Event.Call m input []] ∧
      c.Call w m input [] =
        (.normal r, (OrdinaryToPrimitive_loop c input names v s).2.world) := by
  induction names generalizing v s with
  | nil => simp [OrdinaryToPrimitive_loop] at h
  | cons name rest ih =>
    rw [loop_cons] at h ⊢
    cases ha : attempt c input name s with
    | threw e s1 =>
      rw [ha] at h
      simp at h
    | primitive r0 s1 =>
      rw [ha] at h
      simp only [Outcome.Return.injEq] at h
      subst h
      exact attempt_primitive_last_call c input name s r0 s1 ha
    | next s1 =>
      rw [ha] at h
      exact ih none s1 h

/-- C18: with each variable modelled as optional, no read finds it unbound. In
OrdinaryToPrimitive no run ends in the unbound read of `var_result`, whatever
the variable holds on entry to the loop, and a returned value is the result of
the invocation made last; in ToObject no run ends in the unbound read of the
constructor-index variable. -/
theorem no_unbound_variable_read {σ : Type} (c : Collaborators σ) :
    (∀ (hint : OrdinaryToPrimitiveHint) (input : Value) (s : Exec σ),
      (Generate_OrdinaryToPrimitive c hint input s).1 ≠ .Unbound) ∧
    (∀ (input : Value) (names : List Value) (v : Option Value) (s : Exec σ),
      (OrdinaryToPrimitive_loop c input names v s).1 ≠ .Unbound) ∧
    (∀ (hint : OrdinaryToPrimitiveHint) (input : Value) (s : Exec σ) (r : Value),
      (Generate_OrdinaryToPrimitive c hint input s).1 = .Return r →
        ∃ pre m w, (Generate_OrdinaryToPrimitive c hint input s).2.trace =
            pre ++ [Event.Call m input []] ∧
          c.Call w m input [] =
            (.normal r, (Generate_OrdinaryToPrimitive c hint input s).2.world)) ∧
    (∀ (context : Context) (object : Value) (heap : Heap),
      (ToObject context object heap).1 ≠ .Unbound) := by
  refine ⟨?_, ?_, ?_, ?_⟩
  · intro hint input s
    exact loop_never_unbound c input (method_names hint) none s
  · intro input names v s
    exact loop_never_unbound c input names v s
  · intro hint input s r h
    exact loop_return_last_call c input (method_names hint) none s r h
  · intro context object heap
    rw [ToObject_by_tag]
    cases object.tag.constructorIndex with
    | some index => simp [if_wrapjsvalue_bound]
    | none =>
      simp only
      by_cases hr : object.tag = .Receiver
      · simp [hr]
      · simp [hr]

/-- Witness for C18: the value 10 returned for the sample object is the result
of the invocation made last. -/
theorem no_unbound_variable_read_witness :
    ∃ pre m w,
      (Generate_OrdinaryToPrimitive sampleWorld .kNumber sampleObject (Exec.start ())).2.trace =
          pre ++ [Event.Call m sampleObject []] ∧
        sampleWorld.Call w m sampleObject [] =
          (.normal (.Smi 10),
            (Generate_OrdinaryToPrimitive sampleWorld .kNumber sampleObject
              (Exec.start ())).2.world) :=
  (no_unbound_variable_read sampleWorld).2.2.1 .kNumber sampleObject (Exec.start ()) (.Smi 10)
    (by decide)

/-! ## ToLength: rounds, range and ToInteger -/

/-- On a non-numeric input whose number conversion throws, the round ends with
the thrown value. -/
theorem ToLength_round_throws {σ : Type} (c : Collaborators σ) (fuel : Nat) (x : Value)
    (hx : x.number = none) (s : Exec σ) (e : Value) (w1 : σ)
    (hcall : c.NonNumberToNumber s.world x = (.throw e, w1)) :
    ToLength c (fuel + 1) x s =
      some (.Exception e,
        { world := w1, trace := s.trace ++ [Event.NonNumberToNumber x] }) := by
  cases x with
  | Smi k => simp [Value.number] at hx
  | Heap o =>
    have hmap : IsHeapNumberMap (LoadMap o) = false := by
      cases h : IsHeapNumberMap (LoadMap o)
      · rfl
      · obtain ⟨v, rfl⟩ := (isHeapNumberMap_loadMap o).1 h
        simp [Value.number] at hx
    simp only [ToLength, ToLength_loop, TaggedIsPositiveSmi, hmap, Bool.false_eq_true, if_false,
      CallStub_NonNumberToNumber, hcall]

/-- C17: provided the number conversion returns a numeric value whenever it
returns, two rounds of the loop are enough for ToLength to end on every input,
and the number conversion is called at most once (on the input itself); on a
numeric input one round is enough and nothing is called. No run ends without a
round. -/
theorem ToLength_at_most_two_rounds {σ : Type} (c : Collaborators σ)
    (hnumeric : ∀ w x n w', c.NonNumberToNumber w x = (.normal n, w') → n.number ≠ none)
    (input : Value) (s : Exec σ) :
    (∃ r s', (∀ fuel, ToLength c (fuel + 2) input s = some (r, s')) ∧
      (s'.trace = s.trace ∨ s'.trace = s.trace ++ [Event.NonNumberToNumber input])) ∧
    (input.number ≠ none → ∃ r, ∀ fuel, ToLength c (fuel + 1) input s = some (r, s)) ∧
    ToLength c 0 input s = none := by
  refine ⟨?_, ?_, rfl⟩
  · cases hx : input.number with
    | some v =>
      have hin : input.number ≠ none := by simp [hx]
      obtain ⟨r, hr⟩ := ToLength_numeric_returns c input hin s
      exact ⟨.Return r, s, fun fuel => hr (fuel + 1), Or.inl rfl⟩
    | none =>
      rcases hcall : c.NonNumberToNumber s.world input with ⟨comp, w1⟩
      cases comp with
      | throw e =>
        exact ⟨.Exception e, { world := w1, trace := s.trace ++ [Event.NonNumberToNumber input] },
          fun fuel => ToLength_round_throws c (fuel + 1) input hx s e w1 hcall, Or.inr rfl⟩
      | normal n =>
        obtain ⟨r, hr⟩ := ToLength_numeric_returns c n (hnumeric _ _ _ _ hcall)
          { world := w1, trace := s.trace ++ [Event.NonNumberToNumber input] }
        refine ⟨.Return r, { world := w1, trace := s.trace ++ [Event.NonNumberToNumber input] },
          fun fuel => ?_, Or.inr rfl⟩
        rw [ToLength_round_non_numeric c (fuel + 1) input hx s n w1 hcall, hr fuel]
  · intro hin
    obtain ⟨r, hr⟩ := ToLength_numeric_returns c input hin s
    exact ⟨.Return r, hr⟩

/-- Witness for C17: in the sample world the number conversion always returns
a number, and ToLength("10") ends within two rounds. -/
theorem ToLength_at_most_two_rounds_witness :
    ∃ r s', (∀ fuel, ToLength sampleWorld (fuel + 2) (.Heap (.String "10")) (Exec.start ()) =
        some (r, s')) ∧
      (s'.trace = (Exec.start ()).trace ∨
        s'.trace = (Exec.start ()).trace ++ [Event.NonNumberToNumber (.Heap (.String "10"))]) :=
  (ToLength_at_most_two_rounds sampleWorld
    (by
      intro w x n w' h
      simp only [sampleWorld] at h
      split at h
      · simp only [Prod.mk.injEq, Completion.normal.injEq] at h
        rw [← h.1]
        simp [Value.number]
      · simp only [Prod.mk.injEq, Completion.normal.injEq] at h
        rw [← h.1]
        simp [Value.number])
    (.Heap (.String "10")) (Exec.start ())).1

/-- The amended classification of a double is an integer from 0 to 2^53−1. -/
theorem ToLength_float_amended_range (v : Float64) :
    ∃ k : Int, 0 ≤ k ∧ k ≤ 9007199254740991 ∧ ToLength_float_amended v = .finite k := by
  obtain ⟨hnan, hneg, hzero, hpos, hfin⟩ := ToLength_float_amended_values
  cases v with
  | nan => exact ⟨0, le_refl _, by norm_num, by rw [hnan]; simp⟩
  | inf negative =>
    cases negative with
    | true => exact ⟨0, le_refl _, by norm_num, by rw [hneg]; simp⟩
    | false => exact ⟨9007199254740991, by norm_num, le_refl _, by rw [hpos]; simp⟩
  | negZero => exact ⟨0, le_refl _, by norm_num, by rw [hzero]; simp⟩
  | finite q =>
    rw [hfin q]
    by_cases h0 : q ≤ 0
    · exact ⟨0, le_refl _, by norm_num, by simp [h0]⟩
    · by_cases h1 : (9007199254740991 : ℚ) ≤ q
      · exact ⟨9007199254740991, by norm_num, le_refl _, by simp [h0, h1]⟩
      · refine ⟨⌊q⌋, Int.floor_nonneg.2 (le_of_lt (not_le.1 h0)), ?_, by simp [h0, h1]⟩
        have hle : ((⌊q⌋ : Int) : ℚ) ≤ 9007199254740991 :=
          le_trans (Int.floor_le q) (le_of_lt (not_le.1 h1))
        exact_mod_cast hle

/-- Every value ToLength returns is an integer from 0 to 2^53−1. -/
theorem ToLength_loop_range {σ : Type} (c : Collaborators σ)
    (hrange : ∀ w x n w', c.NonNumberToNumber w x = (.normal n, w') → n.inSmiRange = true)
    (fuel : Nat) (input : Value) (s : Exec σ) (r : Value) (s' : Exec σ)
    (hinput : input.inSmiRange = true)
    (h : ToLength c fuel input s = some (.Return r, s')) :
    ∃ k : Int, 0 ≤ k ∧ k ≤ 9007199254740991 ∧ r.number = some (.finite k) := by
  induction fuel generalizing input s with
  | zero => simp [ToLength, ToLength_loop] at h
  | succ fuel ih =>
    cases hx : input.number with
    | some v =>
      cases input with
      | Smi n =>
        rw [ToLength_smi] at h
        simp only [Option.some.injEq, Prod.mk.injEq, Outcome.Return.injEq] at h
        simp only [Value.inSmiRange, kSmiMinValue, kSmiMaxValue, decide_eq_true_eq] at hinput
        by_cases hn : 0 ≤ n
        · rw [if_pos hn] at h
          rw [← h.1]
          exact ⟨n, hn, by omega, rfl⟩
        · rw [if_neg hn] at h
          rw [← h.1]
          exact ⟨0, le_refl _, by norm_num, rfl⟩
      | Heap o =>
        cases o with
        | HeapNumber x =>
          obtain ⟨r0, hr0, hnum⟩ := ToLength_heap_number c fuel x s
          rw [hr0] at h
          simp only [Option.some.injEq, Prod.mk.injEq, Outcome.Return.injEq] at h
          rw [← h.1, hnum]
          obtain ⟨k, hk0, hk1, hk⟩ := ToLength_float_amended_range x
          exact ⟨k, hk0, hk1, by rw [hk]⟩
        | String _ => simp [Value.number] at hx
        | Symbol _ => simp [Value.number] at hx
        | Oddball _ => simp [Value.number] at hx
        | JSReceiver _ _ => simp [Value.number] at hx
    | none =>
      rcases hcall : c.NonNumberToNumber s.world input with ⟨comp, w1⟩
      cases comp with
      | throw e =>
        rw [ToLength_round_throws c fuel input hx s e w1 hcall] at h
        simp at h
      | normal n =>
        rw [ToLength_round_non_numeric c fuel input hx s n w1 hcall] at h
        exact ih n _ (hrange _ _ _ _ hcall) h

/-- C19: every value ToLength returns denotes an integer `k` with
0 ≤ k ≤ 2^53−1, so never NaN, a negative value, a fraction or an infinity
(small integers being in the Smi range, on input and from the number
conversion). ToLength of NaN, of −0 and of −Infinity is 0, and ToLength of
+Infinity is 2^53−1. -/
theorem ToLength_result_is_length {σ : Type} (c : Collaborators σ)
    (hrange : ∀ w x n w', c.NonNumberToNumber w x = (.normal n, w') → n.inSmiRange = true)
    (fuel : Nat) (input : Value) (s : Exec σ) (r : Value) (s' : Exec σ)
    (hinput : input.inSmiRange = true)
    (h : ToLength c fuel input s = some (.Return r, s')) :
    (∃ k : Int, 0 ≤ k ∧ k ≤ 9007199254740991 ∧ r.number = some (.finite k)) ∧
    (∀ (fuel' : Nat) (s0 : Exec σ),
      ToLength c (fuel' + 1) (.Heap (.HeapNumber .nan)) s0 = some (.Return (.Smi 0), s0)) ∧
    (∀ (fuel' : Nat) (s0 : Exec σ),
      ToLength c (fuel' + 1) (.Heap (.HeapNumber .negZero)) s0 = some (.Return (.Smi 0), s0)) ∧
    (∀ (fuel' : Nat) (s0 : Exec σ),
      ToLength c (fuel' + 1) (.Heap (.HeapNumber (.inf true))) s0 =
        some (.Return (.Smi 0), s0)) ∧
    (∀ (fuel' : Nat) (s0 : Exec σ), ∃ r0,
      ToLength c (fuel' + 1) (.Heap (.HeapNumber (.inf false))) s0 = some (.Return r0, s0) ∧
        r0.number = some (.finite 9007199254740991)) := by
  refine ⟨ToLength_loop_range c hrange fuel input s r s' hinput h, ?_, ?_, ?_, ?_⟩
  · intro fuel' s0
    simp [ToLength, ToLength_loop, TaggedIsPositiveSmi, IsHeapNumberMap, LoadMap,
      LoadHeapNumberValue, Float64GreaterThan, SmiConstant]
  · intro fuel' s0
    simp [ToLength, ToLength_loop, TaggedIsPositiveSmi, IsHeapNumberMap, LoadMap,
      LoadHeapNumberValue, Float64GreaterThan, Float64Constant, Float64.toRat, SmiConstant]
  · intro fuel' s0
    simp [ToLength, ToLength_loop, TaggedIsPositiveSmi, IsHeapNumberMap, LoadMap,
      LoadHeapNumberValue, Float64GreaterThan, Float64Constant, SmiConstant]
  · intro fuel' s0
    obtain ⟨r0, hr0, hnum⟩ := ToLength_heap_number c fuel' (.inf false) s0
    exact ⟨r0, hr0, by rw [hnum, ToLength_float_amended_values.2.2.2.1]⟩

/-- Witness for C19: ToLength("10") returns 10, an integer within the
range. -/
theorem ToLength_result_is_length_witness :
    ∃ k : Int, 0 ≤ k ∧ k ≤ 9007199254740991 ∧ (Value.Smi 10).number = some (.finite k) :=
  (ToLength_result_is_length sampleWorld
    (by
      intro w x n w' h
      simp only [sampleWorld] at h
      split at h
      · simp only [Prod.mk.injEq, Completion.normal.injEq] at h
        rw [← h.1]
        rfl
      · simp only [Prod.mk.injEq, Completion.normal.injEq] at h
        rw [← h.1]
        rfl)
    2 (.Heap (.String "10")) (Exec.start ()) (.Smi 10)
    { world := (), trace := [Event.NonNumberToNumber (.Heap (.String "10"))] }
    rfl rfl).1

/-- The amended classification of a double is the clamp of its ToInteger. -/
theorem ToLength_float_amended_eq_clamp (v : Float64) :
    ToLength_float_amended v = .finite (clampToLength (ToInteger_stated v)) := by
  obtain ⟨hnan, hneg, hzero, hpos, hfin⟩ := ToLength_float_amended_values
  cases v with
  | nan => rw [hnan]; simp [ToInteger_stated, clampToLength]
  | inf negative =>
    cases negative with
    | true => rw [hneg]; simp [ToInteger_stated, clampToLength]
    | false => rw [hpos]; simp [ToInteger_stated, clampToLength]
  | negZero => rw [hzero]; simp [ToInteger_stated, clampToLength]
  | finite q =>
    rw [hfin q]
    simp only [ToInteger_stated, clampToLength, Float64.finite.injEq]
    by_cases h0 : q ≤ 0
    · have ht : ((truncate q : Int) : ℚ) ≤ 0 := by
        unfold truncate
        by_cases hq : 0 ≤ q
        · have hzero' : q = 0 := le_antisymm h0 hq
          simp [hzero']
        · rw [if_neg hq]
          have : ⌈q⌉ ≤ 0 := Int.ceil_le.2 (by simpa using h0)
          exact_mod_cast this
      rw [if_pos h0, max_eq_right ht]
      norm_num
    · have hq : 0 ≤ q := le_of_lt (not_le.1 h0)
      have htrunc : truncate q = ⌊q⌋ := by
        unfold truncate
        rw [if_pos hq]
      have hnonneg : (0 : ℚ) ≤ ((⌊q⌋ : Int) : ℚ) := by
        exact_mod_cast Int.floor_nonneg.2 hq
      rw [if_neg h0, htrunc, max_eq_left hnonneg]
      by_cases h1 : (9007199254740991 : ℚ) ≤ q
      · have hbig : (9007199254740991 : ℚ) ≤ ((⌊q⌋ : Int) : ℚ) := by
          have : (9007199254740991 : Int) ≤ ⌊q⌋ := Int.le_floor.2 (by exact_mod_cast h1)
          exact_mod_cast this
        rw [if_pos h1, min_eq_right hbig]
      · have hsmall : ((⌊q⌋ : Int) : ℚ) ≤ 9007199254740991 :=
          le_trans (Int.floor_le q) (le_of_lt (not_le.1 h1))
        rw [if_neg h1, min_eq_left hsmall]

/-- C20: for every numeric input `x` (a small integer in the Smi range, or a
heap number), ToLength(x) is min(max(ToInteger(x), 0), 2^53−1), where
ToInteger maps NaN to 0, keeps +Infinity and −Infinity and truncates a finite
value toward zero. -/
theorem ToLength_refines_clamped_ToInteger {σ : Type} (c : Collaborators σ) (fuel : Nat)
    (x : Value) (s : Exec σ) (v : Float64)
    (hx : x.number = some v) (hrange : x.inSmiRange = true) :
    ∃ r, ToLength c (fuel + 1) x s = some (.Return r, s) ∧
      r.number = some (.finite (clampToLength (ToInteger_stated v))) := by
  cases x with
  | Smi n =>
    simp only [Value.number, Option.some.injEq] at hx
    subst hx
    simp only [Value.inSmiRange, kSmiMinValue, kSmiMaxValue, decide_eq_true_eq] at hrange
    refine ⟨_, ToLength_smi c fuel n s, ?_⟩
    have htrunc : truncate (n : ℚ) = n := by
      unfold truncate
      by_cases hq : (0 : ℚ) ≤ (n : ℚ)
      · rw [if_pos hq, Int.floor_intCast]
      · rw [if_neg hq, Int.ceil_intCast]
    simp only [ToInteger_stated, clampToLength, htrunc]
    by_cases hn : 0 ≤ n
    · have h0 : (0 : ℚ) ≤ (n : ℚ) := by exact_mod_cast hn
      have h1 : (n : ℚ) ≤ 9007199254740991 := by
        have : n ≤ 9007199254740991 := by omega
        exact_mod_cast this
      rw [if_pos hn, max_eq_left h0, min_eq_left h1]
      rfl
    · have h0 : (n : ℚ) ≤ 0 := by
        have : n ≤ 0 := by omega
        exact_mod_cast this
      rw [if_neg hn, max_eq_right h0]
      simp [Value.number]
  | Heap o =>
    cases o with
    | HeapNumber y =>
      simp only [Value.number, Option.some.injEq] at hx
      subst hx
      obtain ⟨r, hr, hnum⟩ := ToLength_heap_number c fuel y s
      exact ⟨r, hr, by rw [hnum, ToLength_float_amended_eq_clamp]⟩
    | String _ => simp [Value.number] at hx
    | Symbol _ => simp [Value.number] at hx
    | Oddball _ => simp [Value.number] at hx
    | JSReceiver _ _ => simp [Value.number] at hx

/-- Witness for C20: ToLength(−5) is the clamp of ToInteger(−5). -/
theorem ToLength_refines_clamped_ToInteger_witness :
    ∃ r, ToLength sampleWorld (0 + 1) (.Smi (-5)) (Exec.start ()) =
        some (.Return r, Exec.start ()) ∧
      r.number = some (.finite (clampToLength (ToInteger_stated (.finite ((-5 : Int) : ℚ))))) :=
  ToLength_refines_clamped_ToInteger sampleWorld 0 (.Smi (-5)) (Exec.start ())
    (.finite ((-5 : Int) : ℚ)) rfl (by decide)

end V8
